import Mathlib

/-!
Shallow embedding of the SOP Metric Derivation Engine of
src/src/App.jsx (Financial-Report-Extraction-Frontend).

Modelling conventions:
* JavaScript string-or-nullish values are `Option String` (`none` stands for
  both `null` and `undefined`; every use in the engine treats the two alike).
* JavaScript numbers are modelled as `Rat`.  All numbers reaching the engine
  come from `parseNumericValue`, which rejects `NaN`/`Infinity`, and the
  arithmetic performed (`+ - * /` with an explicit zero-divisor guard) is
  exact on the inputs the engine accepts, so `Number.isFinite` re-checks in
  the source are identically true in this model.
* JavaScript objects with dynamic keys (line-item rows, lookup maps) are
  association lists `List (String × _)` in key-insertion order, matching the
  enumeration order of `Object.keys` for string keys.
* Whitespace and case conversion follow the ASCII fragment of the JS
  `trim` / `toLowerCase` / `\s` semantics, which is the fragment exercised by
  the engine's inputs.
-/

set_option maxRecDepth 4000

-- The Batteries rational primitives are `irreducible`, which blocks the
-- kernel-backed evaluation `decide` performs on the concrete scenarios
-- below; restore default reducibility for them.
set_option allowUnsafeReducibility true

attribute [semireducible] Rat.add Rat.mul Rat.sub Rat.div Rat.inv Rat.neg
  Rat.blt Rat.ofScientific

namespace SopEngine

/-- JS string-or-nullish value: `none` models `null`/`undefined`. -/
abbrev JStr := Option String

/-- ASCII whitespace, the fragment of the JS `\s` class used here. -/
def isWsChar (c : Char) : Bool :=
  c == ' ' || c == '\t' || c == '\n' || c == '\r'

/-- JS `String.prototype.trim` (ASCII fragment). -/
def jsTrim (s : String) : String :=
  ⟨((s.data.dropWhile isWsChar).reverse.dropWhile isWsChar).reverse⟩

/-- ASCII lower-casing of one character, as done by JS `toLowerCase`. -/
def lowerChar (c : Char) : Char :=
  if 'A' ≤ c && c ≤ 'Z' then Char.ofNat (c.toNat + 32) else c

/-- JS `String.prototype.toLowerCase` (ASCII fragment). -/
def jsLower (s : String) : String := ⟨s.data.map lowerChar⟩

/-- Contiguous-prefix test on character lists. -/
def listPrefixOf : List Char → List Char → Bool
  | [], _ => true
  | _ :: _, [] => false
  | a :: as, b :: bs => a == b && listPrefixOf as bs

/-- Contiguous-infix test on character lists. -/
def listInfixOf (pat : List Char) (s : List Char) : Bool :=
  match s with
  | [] => pat.isEmpty
  | _ :: rest => listPrefixOf pat s || listInfixOf pat rest

/-- JS `a.includes(b)` on strings. -/
def containsSub (s pat : String) : Bool := listInfixOf pat.data s.data

/-- Truthiness of a JS string value: nonempty strings are truthy. -/
def truthy (v : JStr) : Bool :=
  match v with
  | some s => s != ""
  | none => false

/-- JS `a || b` on string values. -/
def jsOr (a b : JStr) : JStr := if truthy a then a else b

/-- JS `a || b` where both sides are known to be strings. -/
def orElseStr (a b : String) : String := if a != "" then a else b

/-- `toTrimmed` from App.jsx: `''` on nullish, `toString().trim()` otherwise. -/
def toTrimmed (v : JStr) : String :=
  match v with
  | none => ""
  | some s => jsTrim s

/-- `normaliseKey` from App.jsx: trim then lower-case. -/
def normaliseKey (v : JStr) : String := jsLower (toTrimmed v)

/-- `cleanSopText` from App.jsx. -/
def cleanSopText (v : JStr) : String := toTrimmed v

/-- `normaliseSopValue` from App.jsx (string inputs): trimmed text, `"-"`
when nullish or blank. -/
def normaliseSopValue (v : JStr) : String :=
  match v with
  | none => "-"
  | some s => if jsTrim s == "" then "-" else jsTrim s

/-! ### Numeric Normalizer (`parseNumericValue`, `formatNumericValue`) -/

/-- The unicode minus-like glyphs mapped to ASCII minus by `parseNumericValue`
(`−`, `‒`, `–`, `—`). -/
def isUnicodeMinus (c : Char) : Bool :=
  c == '−' || c == '‒' || c == '–' || c == '—'

/-- `.replace(/[−‒–—]/g, '-')`. -/
def mapUnicodeMinus (s : String) : String :=
  ⟨s.data.map (fun c => if isUnicodeMinus c then '-' else c)⟩

/-- `.replace(/[, ]+/g, '')`: drop every comma and space. -/
def stripSeparators (s : String) : String :=
  ⟨s.data.filter (fun c => !(c == ',' || c == ' '))⟩

/-- Characters the JS `.` regex atom does not match (no `m`/`s` flags). -/
def isJsLineTerminator (c : Char) : Bool :=
  c == '\n' || c == '\r' || c == ' ' || c == ' '

/-- `.replace(/^\((.*)\)$/, '-$1')`: a fully parenthesised value becomes
negated; `.*` cannot cross a line terminator. -/
def parenToMinus (s : String) : String :=
  match s.data with
  | '(' :: (c :: cs) =>
    let body := (c :: cs).dropLast
    if (c :: cs).getLast? == some ')' && body.all (fun ch => !isJsLineTerminator ch) then
      ⟨'-' :: body⟩
    else s
  | _ => s

/-- `.replace(/[^0-9.\-]/g, '')`. -/
def stripNonNumeric (s : String) : String :=
  ⟨s.data.filter (fun c => c.isDigit || c == '.' || c == '-')⟩

/-- Digit-string value (the parts of a JS numeric literal). -/
def digitsVal : List Char → Nat
  | [] => 0
  | c :: cs => (digitsVal cs) + (c.toNat - 48) * 10 ^ cs.length

/-- Split a character list at `.` occurrences. -/
def splitDot : List Char → List (List Char)
  | [] => [[]]
  | c :: rest =>
    match splitDot rest with
    | [] => [[c]]
    | h :: t => if c == '.' then [] :: h :: t else (c :: h) :: t

/-- JS `Number(s)` restricted to strings over `[0-9.\-]` (the only strings it
is applied to in `parseNumericValue`): an optional leading minus, then digits
with at most one decimal point and at least one digit; anything else is `NaN`
(`none`).  Modelled exactly over `Rat`; the IEEE overflow of extremely long
digit strings is not modelled. -/
def jsNumber (s : String) : Option Rat :=
  let neg := s.data.head? == some '-'
  let body := if neg then s.data.drop 1 else s.data
  if body.any (fun c => c == '-') then none
  else
    match splitDot body with
    | [ip] =>
      if ip.all Char.isDigit && !ip.isEmpty then
        let v : Rat := mkRat (Int.ofNat (digitsVal ip)) 1
        some (if neg then -v else v)
      else none
    | [ip, fp] =>
      if ip.all Char.isDigit && fp.all Char.isDigit && !(ip.isEmpty && fp.isEmpty) then
        let v : Rat := mkRat (Int.ofNat (digitsVal ip * 10 ^ fp.length + digitsVal fp))
          (10 ^ fp.length)
        some (if neg then -v else v)
      else none
    | _ => none

/-- `parseNumericValue` from App.jsx. -/
def parseNumericValue (input : JStr) : Option Rat :=
  match input with
  | none => none
  | some raw =>
    let str := jsTrim raw
    if str == "" then none
    else
      let normalised := stripNonNumeric (parenToMinus (stripSeparators (mapUnicodeMinus str)))
      if normalised == "" || normalised == "-" || normalised == "." || normalised == "-." then
        none
      else
        -- the `Number.isFinite` re-check of the source is identically true
        -- for the exact rationals produced here
        jsNumber normalised

/-- Group a list of characters into blocks of three. -/
def chunk3 : List Char → List (List Char)
  | [] => []
  | [a] => [[a]]
  | [a, b] => [[a, b]]
  | a :: b :: c :: rest => [a, b, c] :: chunk3 rest

/-- Decimal rendering of a natural with `en-US` thousands grouping. -/
def groupIntDigits (n : Nat) : String :=
  let rev := (toString n).data.reverse
  ⟨List.intercalate [','] (((chunk3 rev).map List.reverse).reverse)⟩

/-- Floor of a nonnegative rational as a natural number. -/
def ratFloorNat (q : Rat) : Nat := (q.num / (q.den : Int)).toNat

/-- JS `Math.abs` (the sign of a canonical rational is the sign of its
numerator). -/
def qAbs (q : Rat) : Rat := if q.num < 0 then -q else q

/-- Round `|q| * 10^10` half-away-from-zero (the `Intl` default). -/
def ratRound10 (q : Rat) : Nat :=
  ratFloorNat (qAbs q * (10 ^ 10 : Rat) + mkRat 1 2)

/-- The fractional-digit block emitted by `Intl.NumberFormat` with
`maximumFractionDigits: 10` (trailing zeros are not emitted). -/
def fracDigitsStr (fp : Nat) : String :=
  if fp == 0 then ""
  else
    let s := toString fp
    let padded := List.replicate (10 - s.data.length) '0' ++ s.data
    "." ++ ⟨(padded.reverse.dropWhile (fun c => c == '0')).reverse⟩

/-- `new Intl.NumberFormat('en-US', { useGrouping: true,
maximumFractionDigits: 10 }).format(q)`. -/
def intlFormat (q : Rat) : String :=
  let n := ratRound10 q
  (if q.num < 0 then "-" else "") ++ groupIntDigits (n / 10 ^ 10) ++ fracDigitsStr (n % 10 ^ 10)

/-- `.replace(/\.0+$/, '')`: strip the leftmost dot that is followed only by
zeros up to the end of the string. -/
def cleanupDotZeros (cs : List Char) : List Char :=
  match cs with
  | [] => []
  | c :: rest =>
    if c == '.' && !rest.isEmpty && rest.all (fun d => d == '0') then []
    else c :: cleanupDotZeros rest

/-- `.replace(/(\.\d*?)0+$/, '$1')`: at the leftmost dot whose suffix is all
digits ending in a zero, strip the trailing zeros. -/
def cleanupTrailingZeros (cs : List Char) : List Char :=
  match cs with
  | [] => []
  | c :: rest =>
    if c == '.' && !rest.isEmpty && rest.all Char.isDigit && rest.getLast? == some '0' then
      c :: (rest.reverse.dropWhile (fun d => d == '0')).reverse
    else c :: cleanupTrailingZeros rest

/-- `.replace(/\.$/, '')`. -/
def cleanupTrailingDot (cs : List Char) : List Char :=
  if cs.getLast? == some '.' then cs.dropLast else cs

/-- `formatNumericValue` from App.jsx.  Non-finite input returns `null` in the
source; every `Rat` is finite, so this model always formats. -/
def formatNumericValue (q : Rat) : Option String :=
  some ⟨cleanupTrailingDot (cleanupTrailingZeros (cleanupDotZeros (intlFormat q).data))⟩

/-- The `/%|percent|pct/i` test of `appendThreeZeros`. -/
def percentTest (s : String) : Bool :=
  containsSub (jsLower s) "%" || containsSub (jsLower s) "percent" ||
    containsSub (jsLower s) "pct"

/-- `appendThreeZeros` from App.jsx. -/
def appendThreeZeros (input : JStr) : Option String :=
  match input with
  | none => none
  | some raw =>
    if jsTrim raw == "" || percentTest raw then none
    else
      match parseNumericValue (some raw) with
      | none => none
      | some numeric => formatNumericValue (numeric * 1000)

/-- `convertValueToPositive` from App.jsx. -/
def convertValueToPositive (input : JStr) : Option String :=
  match parseNumericValue input with
  | none => none
  | some numeric => formatNumericValue (qAbs numeric)

/-! ### Data model: rows, context -/

/-- A line-item row: a JS object as an association list of its own enumerable
string keys in insertion order.  A `none` value models a key whose value is
`null`/`undefined`; such keys still appear in `Object.keys`. -/
structure Row where
  fields : List (String × JStr)
deriving Repr, DecidableEq

/-- JS property read `row[key]`, with `null` and `undefined` identified. -/
def jget (r : Row) (k : String) : JStr :=
  match r.fields.find? (fun p => p.1 == k) with
  | some p => p.2
  | none => none

/-- `Object.keys(row)`. -/
def rowKeys (r : Row) : List String := r.fields.map Prod.fst

/-- `row.lineItem || row['Line Item']`. -/
def rowLineItem (r : Row) : JStr := jsOr (jget r "lineItem") (jget r "Line Item")

/-- The snapshot the resolver reads: current line items, declared value
columns and the `sopMetadata.latestColumns` map (entries in insertion
order). -/
structure Ctx where
  lineItems : List Row
  valueColumns : List String
  latestColumns : List (String × JStr)
deriving Repr, DecidableEq

/-! ### Line-Item Index and Column Resolver -/

/-- The rows stored under key `sk || "||" || lk` by the `lineItemLookup`
memo: rows whose normalised statement and line-item label match, in input
order (the `Map` groups per key preserving insertion order). -/
def rowsFor (items : List Row) (sk lk : String) : List Row :=
  items.filter (fun r =>
    normaliseKey (jget r "statement") == sk && normaliseKey (rowLineItem r) == lk)

/-- `findMatchingColumnName` from `manualSopOverrides`: the row's first own
key equal to the request after trim + lower-casing, else `''`. -/
def findMatchingColumnName (row : Row) (columnName : String) : String :=
  let trimmed := jsTrim columnName
  if trimmed == "" then ""
  else
    let targetKey := normaliseKey (some trimmed)
    match (rowKeys row).find? (fun k => normaliseKey (some k) == targetKey) with
    | some k => k
    | none => ""

/-- First valid `latestColumns` entry for a normalised statement key (the
code builds a keep-first map and then looks the key up). -/
def latestColumnFor (latest : List (String × JStr)) (sk : String) : Option String :=
  match latest.find? (fun p =>
      normaliseKey (some p.1) != "" && toTrimmed p.2 != "" &&
        normaliseKey (some p.1) == sk) with
  | some p => some (toTrimmed p.2)
  | none => none

/-! ### Value Resolver (`resolveLineItemValue`) -/

/-- Dedup identifier of a candidate: `rowId` when truthy, else the normalised
statement/label pair, suffixed with the resolved column. -/
def candIdent (row : Row) (resolvedColumn : String) : String :=
  let rid := jget row "rowId"
  (if truthy rid then rid.getD ""
   else normaliseKey (jget row "statement") ++ "||" ++ normaliseKey (rowLineItem row))
    ++ "||" ++ resolvedColumn

/-- One `enqueue(row, candidateColumn)` call: resolve the column against the
row's keys, skip unresolved or already-seen candidates. -/
def enqueueStep (st : List String × List (Row × String)) (p : Row × String) :
    List String × List (Row × String) :=
  let rc := findMatchingColumnName p.1 p.2
  if rc == "" then st
  else
    let id := candIdent p.1 rc
    if st.1.contains id then st else (id :: st.1, st.2 ++ [(p.1, rc)])

/-- Identity / classification fields excluded from the last resolution
phase. -/
def excludedKeys : List String :=
  ["rowId", "statement", "lineItem", "Line Item", "classification", "aiConfidence"]

/-- Phase 1: the explicit column hint tried against every matching row. -/
def hintPairs (rows : List Row) (columnHint : String) : List (Row × String) :=
  if columnHint != "" then rows.map (fun r => (r, columnHint)) else []

/-- Phase 2: the statement's latest/default-column metadata tried against
every matching row. -/
def metaPairs (rows : List Row) (metaColumn : Option String) : List (Row × String) :=
  match metaColumn with
  | some mc => rows.map (fun r => (r, mc))
  | none => []

/-- Phase 3: every declared ValueColumn, in declared order, tried against
every matching row. -/
def declaredPairs (rows : List Row) (valueColumns : List String) : List (Row × String) :=
  valueColumns.flatMap (fun col => rows.map (fun r => (r, col)))

/-- Phase 4: every other field present on each matching row, excluding
identity/classification fields. -/
def otherFieldPairs (rows : List Row) : List (Row × String) :=
  rows.flatMap (fun r =>
    ((rowKeys r).filter (fun k => !excludedKeys.contains k)).map (fun k => (r, k)))

/-- All `enqueue` requests of `resolveLineItemValue`, in program order. -/
def phasePairs (ctx : Ctx) (rows : List Row) (sk columnHint : String) :
    List (Row × String) :=
  hintPairs rows columnHint
    ++ metaPairs rows (latestColumnFor ctx.latestColumns sk)
    ++ declaredPairs rows ctx.valueColumns
    ++ otherFieldPairs rows

/-- The deduplicated candidate list the resolver scans, as the code builds
it (a fold of `enqueue` over all requests). -/
def builtCandidates (ctx : Ctx) (rows : List Row) (sk columnHint : String) :
    List (Row × String) :=
  ((phasePairs ctx rows sk columnHint).foldl enqueueStep ([], [])).2

/-- Successful resolution result. -/
structure Resolved where
  numericValue : Rat
  columnName : String
  statementName : String
  lineItemName : String
  displayValue : String
deriving Repr, DecidableEq

/-- The body of the resolver's final loop: parse the candidate's cell, and
package value and provenance on success. -/
def tryParseCand (statementName lineItemName : String) (c : Row × String) :
    Option Resolved :=
  match jget c.1 c.2 with
  | none => none
  | some raw =>
    match parseNumericValue (some raw) with
    | none => none
    | some numeric =>
      some { numericValue := numeric
             columnName := c.2
             statementName := orElseStr ((jget c.1 "statement").getD "") statementName
             lineItemName := orElseStr ((rowLineItem c.1).getD "") lineItemName
             displayValue := raw }

/-- `resolveLineItemValue` from App.jsx. -/
def resolveLineItemValue (ctx : Ctx) (statementName lineItemName columnHint : String) :
    Option Resolved :=
  let sk := normaliseKey (some statementName)
  let lk := normaliseKey (some lineItemName)
  if sk == "" || lk == "" then none
  else
    let rows := rowsFor ctx.lineItems sk lk
    if rows.isEmpty then none
    else (builtCandidates ctx rows sk columnHint).findSome?
      (tryParseCand statementName lineItemName)

/-! ### Calculation Evaluator (`evaluateEntry`) -/

/-- One calculation step, as stored on a manual entry.  All fields are raw
JS values (`none` when absent). -/
structure Step where
  operator : JStr
  statement : JStr
  lineItem : JStr
  column : JStr
  constant : JStr
deriving Repr, DecidableEq

/-- A manual SOP entry.  `calculation` is `none` when the stored value is
not an array; an element is `none` when it is not an object. -/
structure Entry where
  statement : JStr
  lineItem : JStr
  column : JStr
  value : JStr
  calculation : Option (List (Option Step))
deriving Repr, DecidableEq

/-- The base context captured after resolving the entry's base. -/
structure BaseCtx where
  statementName : String
  columnName : String
deriving Repr, DecidableEq

/-- `addColumn`: record a nonempty column name once, in first-touch order
(JS `Set` insertion order). -/
def addCol (cols : List String) (c : String) : List String :=
  if c == "" then cols else if cols.contains c then cols else cols ++ [c]

/-- Maximal runs of non-whitespace characters. -/
def wordsAux : List Char → List Char → List (List Char)
  | [], acc => if acc.isEmpty then [] else [acc.reverse]
  | c :: rest, acc =>
    if isWsChar c then
      if acc.isEmpty then wordsAux rest [] else acc.reverse :: wordsAux rest []
    else wordsAux rest (c :: acc)

/-- JS `Array.prototype.join`. -/
def joinWith (sep : String) : List String → String
  | [] => ""
  | [x] => x
  | x :: y :: rest => x ++ sep ++ joinWith sep (y :: rest)

/-- `part.replace(/\s+/g, ' ').trim()`. -/
def squash (s : String) : String :=
  joinWith " " ((wordsAux s.data []).map (fun w => (⟨w⟩ : String)))

/-- Final formula assembly: squash each part, drop empties, join with a
space. -/
def joinFormula (parts : List String) : String :=
  joinWith " " ((parts.map squash).filter (fun p => p != ""))

/-- `['+', '-', '*', '/'].includes(step.operator)`. -/
def isKnownOp (o : JStr) : Bool :=
  o == some "+" || o == some "-" || o == some "*" || o == some "/"

/-- The coerced operator: unknown operators behave as `'+'` (both via the
coercion and via the `switch` default). -/
def normOp (o : JStr) : String := if isKnownOp o then o.getD "" else "+"

/-- The trail fragment rendered for a resolved reference operand. -/
def describeResolved (r : Resolved) (fallbackLineItem fallbackStatement : String) :
    String :=
  let valueDisplay :=
    if r.displayValue != "" then normaliseSopValue (some r.displayValue)
    else (formatNumericValue r.numericValue).getD ""
  let columnDescriptor := if r.columnName != "" then " -> " ++ r.columnName else ""
  orElseStr r.lineItemName fallbackLineItem ++ " [" ++
    orElseStr r.statementName fallbackStatement ++ columnDescriptor ++ "] (" ++
    valueDisplay ++ ")"

/-- The operand of one step: its numeric value, trail description and touched
column, or `none` when the step invalidates the entry. -/
def resolveOperand (ctx : Ctx) (entryStatement entryColumn : String)
    (bc : Option BaseCtx) (step : Step) : Option (Rat × String × String) :=
  let stepConstant := toTrimmed step.constant
  if stepConstant != "" then
    match parseNumericValue (some stepConstant) with
    | none => none
    | some numeric =>
      some (numeric,
        "manual constant " ++ (formatNumericValue numeric).getD "",
        "Manual Input")
  else
    let bcStatement := match bc with | some b => b.statementName | none => ""
    let bcColumn := match bc with | some b => b.columnName | none => ""
    let operandStatement := orElseStr (toTrimmed step.statement) (orElseStr bcStatement entryStatement)
    let operandLineItem := toTrimmed step.lineItem
    if operandLineItem == "" then none
    else
      let operandColumnHint := orElseStr (toTrimmed step.column) (orElseStr bcColumn entryColumn)
      match resolveLineItemValue ctx operandStatement operandLineItem operandColumnHint with
      | none => none
      | some r =>
        some (r.numericValue, describeResolved r operandLineItem operandStatement, r.columnName)

/-- Apply the (coerced) operator; division by an operand equal to zero
invalidates the entry (`none`).  The `Number.isFinite` re-check of the
source is identically true over `Rat`. -/
def applyOp (op : String) (t v : Rat) : Option Rat :=
  if op == "-" then some (t - v)
  else if op == "*" then some (t * v)
  else if op == "/" then (if v == 0 then none else some (t / v))
  else some (t + v)

/-- The step loop of `evaluateEntry`: left-to-right over the calculation
array, skipping non-object elements, threading total, trail parts and
touched columns. -/
def evalSteps (ctx : Ctx) (entryStatement entryColumn : String) (bc : Option BaseCtx) :
    List (Option Step) → Rat → List String → List String →
    Option (Rat × List String × List String)
  | [], t, parts, cols => some (t, parts, cols)
  | none :: rest, t, parts, cols => evalSteps ctx entryStatement entryColumn bc rest t parts cols
  | some step :: rest, t, parts, cols =>
    let op := normOp step.operator
    match resolveOperand ctx entryStatement entryColumn bc step with
    | none => none
    | some (v, desc, col) =>
      match applyOp op t v with
      | none => none
      | some t' =>
        evalSteps ctx entryStatement entryColumn bc rest t'
          (parts ++ [op ++ " " ++ desc]) (addCol cols col)

/-- Result of evaluating one manual entry. -/
structure EvalResult where
  total : Rat
  columns : List String
  formula : String
deriving Repr, DecidableEq

/-- The base of an entry: the starting total, base context, initial trail
and initial touched columns, or `none` when the base invalidates the
entry. -/
def evalBase (ctx : Ctx) (e : Entry) :
    Option (Rat × Option BaseCtx × List String × List String) :=
  let entryStatement := toTrimmed e.statement
  let entryLineItem := toTrimmed e.lineItem
  let entryColumn := toTrimmed e.column
  let entryValueText := toTrimmed e.value
  if entryValueText != "" then
    match parseNumericValue (some entryValueText) with
    | none => none
    | some numeric =>
      some (numeric, none,
        ["Manual value " ++ (formatNumericValue numeric).getD ""],
        addCol [] "Manual Input")
  else if entryStatement != "" && entryLineItem != "" then
    match resolveLineItemValue ctx entryStatement entryLineItem entryColumn with
    | none =>
      some (0, some ⟨entryStatement, ""⟩,
        ["Start at 0 for " ++ entryLineItem ++ " [" ++ entryStatement ++ "]"], [])
    | some r =>
      some (r.numericValue, some ⟨r.statementName, r.columnName⟩,
        [describeResolved r entryLineItem entryStatement],
        addCol [] r.columnName)
  else none

/-- `evaluateEntry` from App.jsx (`none` argument models a non-object
entry). -/
def evaluateEntry (ctx : Ctx) (rawEntry : Option Entry) : Option EvalResult :=
  match rawEntry with
  | none => none
  | some e =>
    match evalBase ctx e with
    | none => none
    | some (t0, bc, parts0, cols0) =>
      let steps := e.calculation.getD []
      match evalSteps ctx (toTrimmed e.statement) (toTrimmed e.column) bc steps t0 parts0 cols0 with
      | none => none
      | some (t, parts, cols) =>
        some { total := t
               columns := cols.filter (fun c => c != "")
               formula := joinFormula parts }

/-! ### Metric Aggregator (`manualSopOverrides`, `displayedSopSummary`) -/

/-- One row of the SOP summary state. -/
structure SumEntry where
  metric : String
  value : String
  statement : String
  column : String
  sourceLine : String
  manual : Bool
deriving Repr, DecidableEq

/-- The override computed for a metric with at least one successfully
evaluating entry. -/
structure Override where
  value : String
  statement : String
  column : String
  sourceLine : String
deriving Repr, DecidableEq

/-- The manual-entries store: metric name to stored value; `none` models a
non-array value, elements `none` model non-object entries. -/
abbrev EntriesMap := List (String × Option (List (Option Entry)))

/-- The per-metric body of `manualSopOverrides`: evaluate every entry, and
if at least one succeeded produce the override. -/
def metricOverride (ctx : Ctx) (entries : List (Option Entry)) : Option Override :=
  let results := entries.filterMap (evaluateEntry ctx)
  if results.isEmpty then none
  else
    let aggregate := (results.map EvalResult.total).foldl (· + ·) 0
    let formulas := (results.map EvalResult.formula).filter (fun f => f != "")
    let columns := (results.map EvalResult.columns).foldl (fun acc cs => cs.foldl addCol acc) []
    let columnValues := columns.filter (fun c => c != "")
    some { value := normaliseSopValue (formatNumericValue aggregate)
           statement := "Derived"
           column :=
             if columnValues.isEmpty then ""
             else match columnValues with
                  | [c] => c
                  | _ => "Multiple"
           sourceLine :=
             if formulas.isEmpty then "Derived from manual calculation"
             else joinWith "; " formulas }

/-- `manualSopOverrides` from App.jsx: fold over the entries map, skipping
non-array and empty values and metrics with no successful entry. -/
def manualSopOverrides (ctx : Ctx) (entriesMap : EntriesMap) : List (String × Override) :=
  entriesMap.foldl
    (fun acc p =>
      match p.2 with
      | none => acc
      | some entries =>
        if entries.isEmpty then acc
        else
          match metricOverride ctx entries with
          | none => acc
          | some ov => acc ++ [(p.1, ov)])
    []

/-- `displayedSopSummary` from App.jsx: apply each metric's override (every
override carries all four fields, so the `hasOwnProperty` branches of the
source are all taken) and force the `manual` flag. -/
def displayedSopSummary (overrides : List (String × Override)) (summary : List SumEntry) :
    List SumEntry :=
  summary.map (fun e =>
    match overrides.find? (fun p => p.1 == e.metric) with
    | none => e
    | some p =>
      { e with value := p.2.value, statement := p.2.statement, column := p.2.column,
               sourceLine := p.2.sourceLine, manual := true })

/-! ### Application state and the propagation handlers -/

/-- The `manualRow` draft state. -/
structure ManualRow where
  statement : JStr
  lineItem : JStr
  values : List (String × JStr)
deriving Repr, DecidableEq

/-- The engine-relevant React state, as one record.  Handlers are modelled
as synchronous state transitions (the engine is single-threaded and each
functional state update is applied in call order). -/
structure AppState where
  lineItems : List Row
  valueColumns : List String
  sopSummary : List SumEntry
  manualSopEntries : EntriesMap
  latestColumns : List (String × JStr)
  statementMultiplierApplied : List (String × Bool)
  verifiedStatements : List (String × Bool)
  qcComplete : Bool
  activeStatement : String
  manualRow : ManualRow
deriving Repr, DecidableEq

/-- The resolver snapshot of a state. -/
def ctxOf (st : AppState) : Ctx :=
  { lineItems := st.lineItems, valueColumns := st.valueColumns,
    latestColumns := st.latestColumns }

/-- JS object property write `obj[k] = v`: replace in place, else append. -/
def setAssocBool (l : List (String × Bool)) (k : String) (b : Bool) :
    List (String × Bool) :=
  if l.any (fun p => p.1 == k) then l.map (fun p => if p.1 == k then (k, b) else p)
  else l ++ [(k, b)]

/-- JS object property read with falsy default. -/
def lookupBool (l : List (String × Bool)) (k : String) : Bool :=
  match l.find? (fun p => p.1 == k) with
  | some p => p.2
  | none => false

/-- `{...item, [columnName]: v}`: update the key in place, else append it. -/
def setField (r : Row) (k v : String) : Row :=
  if r.fields.any (fun p => p.1 == k) then
    ⟨r.fields.map (fun p => if p.1 == k then (k, some v) else p)⟩
  else ⟨r.fields ++ [(k, some v)]⟩

/-- `delete next[columnName]`. -/
def removeField (r : Row) (k : String) : Row :=
  ⟨r.fields.filter (fun p => p.1 != k)⟩

/-- `statements` memo: distinct truthy statement names in first-seen order. -/
def statementsOf (items : List Row) : List String :=
  (items.foldl (fun acc r =>
    let s := (jget r "statement").getD ""
    if acc.contains s then acc else acc ++ [s]) []).filter (fun s => s != "")

/-- The summary rewrite of `handleValueChange`: a currently-Baseline entry
with fully populated provenance matching the edited cell case-insensitively
takes the new cell text. -/
def propagateEdit (statementKey lineItemKey columnKey safeValue : String)
    (e : SumEntry) : SumEntry :=
  if e.statement == "" || e.sourceLine == "" || e.column == "" then e
  else if e.manual then e
  else if jsLower e.statement == statementKey && jsLower e.sourceLine == lineItemKey &&
      jsLower e.column == columnKey then
    { e with value := normaliseSopValue (some safeValue) }
  else e

/-- The row the edit lands on (in JS the per-row assignments leave the last
matching row's data in the closure variables). -/
def affectedRowOf (st : AppState) (rowId : JStr) : Option Row :=
  (st.lineItems.filter (fun item => jget item "rowId" == rowId)).getLast?

/-- The `valueChanged` flag of `handleValueChange`: some matching row stores
a different text for the edited column. -/
def editChanged (st : AppState) (rowId : JStr) (columnName : String) (safeValue : String) :
    Bool :=
  st.lineItems.any (fun item =>
    jget item "rowId" == rowId && jget item columnName != some safeValue)

/-- The statement label of the affected row (`affectedStatement`). -/
def affectedStatementOf (st : AppState) (rowId : JStr) : JStr :=
  match affectedRowOf st rowId with
  | some item => jget item "statement"
  | none => none

/-- The line-item label of the affected row (`affectedLineItem`). -/
def affectedLineItemOf (st : AppState) (rowId : JStr) : String :=
  match affectedRowOf st rowId with
  | some item => (rowLineItem item).getD ""
  | none => ""

/-- `handleValueChange` from App.jsx (status banner omitted; it is
presentation state). -/
def handleValueChange (st : AppState) (rowId : JStr) (columnName : String)
    (value : JStr) : AppState :=
  let safeValue := value.getD ""
  let newItems := st.lineItems.map (fun item =>
    if jget item "rowId" == rowId then
      if jget item columnName == some safeValue then item
      else setField item columnName safeValue
    else item)
  let valueChanged := editChanged st rowId columnName safeValue
  let affectedStatement : JStr := affectedStatementOf st rowId
  let affectedLineItem : String := affectedLineItemOf st rowId
  let st1 := { st with lineItems := newItems }
  if !valueChanged then st1
  else
    let st2 :=
      if truthy affectedStatement then
        { st1 with verifiedStatements :=
            setAssocBool st1.verifiedStatements (affectedStatement.getD "") false }
      else st1
    let st3 :=
      if truthy affectedStatement && affectedLineItem != "" then
        let statementKey := jsLower (affectedStatement.getD "")
        let lineItemKey := jsLower affectedLineItem
        let columnKey := jsLower columnName
        { st2 with sopSummary :=
            st2.sopSummary.map (propagateEdit statementKey lineItemKey columnKey safeValue) }
      else st2
    { st3 with qcComplete := false }

/-- The manual-entry rewrite of `handleRemoveColumn`: an entry whose
top-level (base) column matches the removed column case-insensitively has
its `column` and `value` cleared.  Calculation steps are not touched. -/
def clearEntryColumn (columnKey : String) (entry : Option Entry) : Option Entry :=
  match entry with
  | none => none
  | some e =>
    let entryColumn := if truthy e.column then jsLower (e.column.getD "") else ""
    if entryColumn == columnKey then
      some { e with column := some "", value := some "" }
    else some e

/-- `handleRemoveColumn` from App.jsx (status banner omitted). -/
def handleRemoveColumn (st : AppState) (columnName : String) : AppState :=
  if columnName == "" || !st.valueColumns.contains columnName then st
  else
    let columnKey := jsLower columnName
    { st with
      valueColumns := st.valueColumns.filter (fun c => c != columnName)
      lineItems := st.lineItems.map (fun item =>
        if item.fields.any (fun p => p.1 == columnName) then removeField item columnName
        else item)
      manualRow := { st.manualRow with
        values := st.manualRow.values.filter (fun p => p.1 != columnName) }
      manualSopEntries := st.manualSopEntries.map (fun p =>
        match p.2 with
        | none => (p.1, none)
        | some entries => (p.1, some (entries.map (clearEntryColumn columnKey))))
      sopSummary := st.sopSummary.map (fun e =>
        if e.column == "" then e
        else if jsLower e.column != columnKey then e
        else { e with column := "", value := "-" })
      verifiedStatements := (statementsOf st.lineItems).map (fun s => (s, false))
      qcComplete := false }

/-! ### Statement-wide bulk transforms -/

/-- `filterColumnsForStatement` from App.jsx. -/
def filterColumnsForStatement (columns : List String) (statementName : String) :
    List String :=
  if columns.isEmpty then columns
  else if statementName == "" then columns
  else
    let lowerStatement := jsLower statementName
    if !(containsSub lowerStatement "profit" || containsSub lowerStatement "loss") then
      columns
    else
      columns.filter (fun column =>
        let text := jsLower column
        if text == "" then true
        else
          let hasChange := containsSub text "change"
          let hasPercent := containsSub text "%" || containsSub text "percent" ||
            containsSub text "pct"
          !(hasChange && hasPercent))

/-- `visibleItems` memo: items of the active statement. -/
def visibleItemsOf (st : AppState) : List Row :=
  if st.activeStatement == "" then []
  else st.lineItems.filter (fun r => jget r "statement" == some st.activeStatement)

/-- `statementValueColumns` memo (cell values are strings in this model, so
the `typeof raw === 'number'` population test collapses into the nonblank
test). -/
def statementValueColumns (st : AppState) : List String :=
  let baseColumns := filterColumnsForStatement st.valueColumns st.activeStatement
  let visible := visibleItemsOf st
  if visible.isEmpty then baseColumns
  else
    let populated := baseColumns.filter (fun column =>
      visible.any (fun item =>
        match jget item column with
        | some raw => jsTrim raw != ""
        | none => false))
    if !populated.isEmpty then populated else baseColumns

/-- One cell visit of a bulk transform: apply the cell function to the
snapshot value and push the change through `handleValueChange` when it
differs from the original, counting updates. -/
def bulkCell (cellFn : JStr → Option String) (row : Row) (acc : AppState × Nat)
    (col : String) : AppState × Nat :=
  match cellFn (jget row col) with
  | none => acc
  | some nextValue =>
    let original := match jget row col with
      | none => ""
      | some s => jsTrim s
    if nextValue != original then
      (handleValueChange acc.1 (jget row "rowId") col (some nextValue), acc.2 + 1)
    else acc

/-- The row/column sweep of a bulk transform over the snapshot taken at the
start of the handler (the handler closes over the pre-update `lineItems`),
in row-major program order. -/
def bulkSweep (cellFn : JStr → Option String) (snapshot : List Row)
    (active : String) (cols : List String) (st : AppState) : AppState × Nat :=
  (snapshot.flatMap (fun row =>
      if jget row "statement" == some active then cols.map (fun c => (row, c)) else []))
    |>.foldl (fun acc p => bulkCell cellFn p.1 acc p.2) (st, 0)

/-- `handleStatementAddZeros` from App.jsx (status banner omitted): guarded
by the per-statement multiplier flag, which is set when at least one cell
updated. -/
def handleStatementAddZeros (st : AppState) : AppState :=
  if st.activeStatement == "" then st
  else if lookupBool st.statementMultiplierApplied st.activeStatement then st
  else
    let svc := statementValueColumns st
    if svc.isEmpty then st
    else
      let res := bulkSweep appendThreeZeros st.lineItems st.activeStatement svc st
      if res.2 != 0 then
        { res.1 with statementMultiplierApplied :=
            setAssocBool res.1.statementMultiplierApplied st.activeStatement true }
      else res.1

/-- `handleStatementMakePositive` from App.jsx (status banner omitted). -/
def handleStatementMakePositive (st : AppState) : AppState :=
  if st.activeStatement == "" then st
  else
    let svc := statementValueColumns st
    if svc.isEmpty then st
    else (bulkSweep convertValueToPositive st.lineItems st.activeStatement svc st).1

/-- The displayed SOP summary: the `displayedSopSummary` memo applied to the
`manualSopOverrides` memo, both recomputed from the current state on every
read. -/
def displayedSummaryOf (st : AppState) : List SumEntry :=
  displayedSopSummary (manualSopOverrides (ctxOf st) st.manualSopEntries) st.sopSummary

/-! ### Specification-side descriptions used to state the resolver claim -/

/-- One enqueue request, described declaratively: the actual column it
resolves to on the row together with its dedup identifier, or `none` when
the request does not match a column of the row. -/
def resolveCandSpec (p : Row × String) : Option ((Row × String) × String) :=
  let rc := findMatchingColumnName p.1 p.2
  if rc == "" then none else some ((p.1, rc), candIdent p.1 rc)

/-- Keep the first occurrence of each identifier, in order. -/
def dedupByIdent : List ((Row × String) × String) → List String → List (Row × String)
  | [], _ => []
  | (c, id) :: rest, seen =>
    if seen.contains id then dedupByIdent rest seen
    else c :: dedupByIdent rest (id :: seen)

/-- The candidate list the resolver scans for a request, empty when the
request is guarded off (blank keys or no matching rows give no
candidates). -/
def candidatesOf (ctx : Ctx) (statementName lineItemName columnHint : String) :
    List (Row × String) :=
  let sk := normaliseKey (some statementName)
  let lk := normaliseKey (some lineItemName)
  if sk == "" || lk == "" then []
  else builtCandidates ctx (rowsFor ctx.lineItems sk lk) sk columnHint

/-- A step whose (coerced) operator is division and whose operand resolves
to exactly zero. -/
def divZeroStep (ctx : Ctx) (entryStatement entryColumn : String) (bc : Option BaseCtx)
    (s : Option Step) : Prop :=
  ∃ step, s = some step ∧ normOp step.operator = "/" ∧
    ∃ d c, resolveOperand ctx entryStatement entryColumn bc step = some (0, d, c)

/-! ### Concrete fixtures used in the scenario theorems and witnesses -/

/-- A row of statement `S`, line item `Rev`, with only column `Q2`
populated. -/
def twoColRowA : Row :=
  ⟨[("rowId", some "r1"), ("statement", some "S"), ("lineItem", some "Rev"),
    ("Q2", some "7")]⟩

/-- A second row of the same key with only column `Q1` populated. -/
def twoColRowB : Row :=
  ⟨[("rowId", some "r2"), ("statement", some "S"), ("lineItem", some "Rev"),
    ("Q1", some "5")]⟩

/-- Context with two rows for one key, declared columns `[Q2, Q1]` and
latest-column metadata `Q2`: every ordering other than the hint phase would
surface `Q2`'s value first. -/
def twoRowCtx : Ctx := ⟨[twoColRowA, twoColRowB], ["Q2", "Q1"], [("S", some "Q2")]⟩

/-- The §8 scenario row: `Total Revenue` of `Profit or Loss`, `Q1` = 600. -/
def c6Row : Row :=
  ⟨[("rowId", some "r1"), ("statement", some "Profit or Loss"),
    ("lineItem", some "Total Revenue"), ("Q1", some "600")]⟩

/-- The §8 manual entry: base = that cell, one step `× constant 2`. -/
def c6Entry : Entry :=
  ⟨some "Profit or Loss", some "Total Revenue", some "Q1", none,
    some [some ⟨some "*", none, none, none, some "2"⟩]⟩

/-- The §8 scenario state, with Revenues flipped Manual by `c6Entry`. -/
def c6State : AppState :=
  { lineItems := [c6Row], valueColumns := ["Q1"],
    sopSummary := [⟨"Revenues", "600", "Profit or Loss", "Q1", "Total Revenue", false⟩],
    manualSopEntries := [("Revenues", some [some c6Entry])],
    latestColumns := [], statementMultiplierApplied := [], verifiedStatements := [],
    qcComplete := true, activeStatement := "Profit or Loss",
    manualRow := ⟨none, none, []⟩ }

/-- A row with two populated columns, used for the column-removal claim. -/
def c7Row : Row :=
  ⟨[("rowId", some "r1"), ("statement", some "S"), ("lineItem", some "L"),
    ("Q1", some "5"), ("Q2", some "7")]⟩

/-- An entry whose only operand is its base reference, hinted at `Q1`. -/
def c7BaseEntry : Entry := ⟨some "S", some "L", some "Q1", none, some []⟩

/-- An entry with a literal base and one calculation step referencing
column `Q1`. -/
def c7StepEntry : Entry :=
  ⟨none, none, none, some "10",
    some [some ⟨some "+", some "S", some "L", some "Q1", none⟩]⟩

/-- State holding both entries before the `Q1` column is removed. -/
def c7State : AppState :=
  { lineItems := [c7Row], valueColumns := ["Q1", "Q2"],
    sopSummary := [⟨"Revenues", "5", "S", "Q1", "L", false⟩],
    manualSopEntries := [("Revenues", some [some c7BaseEntry]),
                         ("Cash", some [some c7StepEntry])],
    latestColumns := [], statementMultiplierApplied := [], verifiedStatements := [],
    qcComplete := true, activeStatement := "S", manualRow := ⟨none, none, []⟩ }

/-- `c7State` after removing column `Q1`. -/
def c7Removed : AppState := handleRemoveColumn c7State "Q1"

/-- `c7BaseEntry` as stored after the removal: base column and value
cleared. -/
def c7BaseCleared : Entry := ⟨some "S", some "L", some "", some "", some []⟩

/-- A one-entry context for the aggregation witnesses. -/
def c2Ctx : Ctx := ⟨[c7Row], ["Q1", "Q2"], []⟩

/-- A literal-base entry worth 5. -/
def c2EntryA : Entry := ⟨none, none, none, some "5", some []⟩

/-- An entry that divides by a constant zero, so it never evaluates. -/
def c3DivEntry : Entry :=
  ⟨none, none, none, some "5",
    some [some ⟨some "/", none, none, none, some "0"⟩]⟩

/-- An entry whose base reference cannot resolve (no such line item). -/
def c4Entry : Entry :=
  ⟨some "S", some "Missing", some "Q1", none,
    some [some ⟨some "+", none, some "L", none, none⟩]⟩

/-- A baseline summary metric whose provenance matches the `c7Row` cell
(`S` / `L` / `Q1`), case-insensitively. -/
def c5State : AppState :=
  { lineItems := [c7Row], valueColumns := ["Q1", "Q2"],
    sopSummary := [⟨"Revenues", "5", "s", "q1", "l", false⟩,
                   ⟨"Cash", "5", "s", "q1", "l", true⟩],
    manualSopEntries := [], latestColumns := [], statementMultiplierApplied := [],
    verifiedStatements := [], qcComplete := true, activeStatement := "S",
    manualRow := ⟨none, none, []⟩ }

/-- A step with a nonsense operator, for the operator-coercion witness. -/
def c10Step : Step := ⟨some "frobnicate", none, none, none, some "3"⟩

/-- An empty dataset: every reference fails to resolve against it. -/
def c4Ctx : Ctx := ⟨[], [], []⟩

/-! ## Theorems -/

/-- Unfolding lemma: one step of the resolver's enqueue fold. -/
theorem foldl_enqueueStep (l : List (Row × String)) :
    ∀ seen acc, (l.foldl enqueueStep (seen, acc)).2
      = acc ++ dedupByIdent (l.filterMap resolveCandSpec) seen := by
  induction l with
  | nil => intro seen acc; simp [dedupByIdent]
  | cons p rest ih =>
    intro seen acc
    simp only [List.foldl_cons, List.filterMap_cons]
    by_cases h1 : findMatchingColumnName p.1 p.2 == ""
    · simp only [enqueueStep, resolveCandSpec, h1, if_pos]
      exact ih seen acc
    · by_cases h2 : candIdent p.1 (findMatchingColumnName p.1 p.2) ∈ seen
      · simp [enqueueStep, resolveCandSpec, h1, h2, dedupByIdent, ih]
      · simp [enqueueStep, resolveCandSpec, h1, h2, dedupByIdent, ih, List.append_assoc]

/-- The fold the code runs is exactly "first occurrence per identifier" over
the concatenated phases. -/
theorem builtCandidates_eq_dedup (ctx : Ctx) (rows : List Row) (sk hint : String) :
    builtCandidates ctx rows sk hint
      = dedupByIdent ((phasePairs ctx rows sk hint).filterMap resolveCandSpec) [] := by
  simpa using foldl_enqueueStep (phasePairs ctx rows sk hint) [] []

/-- With no matching rows every phase is empty. -/
theorem phasePairs_nil (ctx : Ctx) (sk hint : String) :
    phasePairs ctx [] sk hint = [] := by
  simp only [phasePairs, hintPairs, metaPairs, declaredPairs, otherFieldPairs]
  cases latestColumnFor ctx.latestColumns sk <;>
    induction ctx.valueColumns <;> simp_all

/-- The resolver is the first-success scan of its candidate list. -/
theorem resolve_eq_findSome (ctx : Ctx) (s l hint : String) :
    resolveLineItemValue ctx s l hint
      = (candidatesOf ctx s l hint).findSome? (tryParseCand s l) := by
  unfold resolveLineItemValue candidatesOf
  by_cases h1 : (normaliseKey (some s) == "" || normaliseKey (some l) == "") = true
  · simp [h1]
  · simp only [h1, if_neg, Bool.not_eq_true]
    by_cases h2 : (rowsFor ctx.lineItems (normaliseKey (some s)) (normaliseKey (some l))).isEmpty
    · have hnil : rowsFor ctx.lineItems (normaliseKey (some s)) (normaliseKey (some l)) = [] :=
        List.isEmpty_iff.mp h2
      simp [h1, h2, hnil, builtCandidates, phasePairs_nil]
    · simp [h1, h2]

/-- Resolution fails exactly when no candidate's cell parses. -/
theorem resolve_none_iff (ctx : Ctx) (s l hint : String) :
    resolveLineItemValue ctx s l hint = none ↔
      ∀ c ∈ candidatesOf ctx s l hint, tryParseCand s l c = none := by
  rw [resolve_eq_findSome]
  exact List.findSome?_eq_none_iff

/-- C1: for every request the Value Resolver builds a deduplicated candidate
list in the strict priority order (1) explicit hint against every matching
row, (2) the statement's latest/default-column metadata against every
matching row, (3) every declared ValueColumn in declared order against every
matching row, (4) every other field of each matching row excluding
identity/classification fields; it returns the first candidate whose cell
parses and returns none iff no candidate parses; and with two rows for one
key holding different columns, the hinted column's value is returned even
though another (row, column) pair comes first in every other ordering. -/
theorem C1_resolver_priority :
    (∀ ctx rows sk hint,
        builtCandidates ctx rows sk hint
          = dedupByIdent
              ((hintPairs rows hint
                  ++ metaPairs rows (latestColumnFor ctx.latestColumns sk)
                  ++ declaredPairs rows ctx.valueColumns
                  ++ otherFieldPairs rows).filterMap resolveCandSpec) [])
  ∧ (∀ ctx s l hint,
        resolveLineItemValue ctx s l hint
          = (candidatesOf ctx s l hint).findSome? (tryParseCand s l))
  ∧ (∀ ctx s l hint,
        resolveLineItemValue ctx s l hint = none ↔
          ∀ c ∈ candidatesOf ctx s l hint, tryParseCand s l c = none)
  ∧ resolveLineItemValue twoRowCtx "S" "Rev" "Q1" = some ⟨5, "Q1", "S", "Rev", "5"⟩
  ∧ resolveLineItemValue twoRowCtx "S" "Rev" "" = some ⟨7, "Q2", "S", "Rev", "7"⟩ := by
  refine ⟨fun ctx rows sk hint => builtCandidates_eq_dedup ctx rows sk hint,
    resolve_eq_findSome, resolve_none_iff, ?_, ?_⟩ <;> decide

/-- Closed instance of the resolver contract: the hinted column wins on the
two-row fixture. -/
theorem C1_resolver_priority_witness :
    resolveLineItemValue twoRowCtx "S" "Rev" "Q1" = some ⟨5, "Q1", "S", "Rev", "5"⟩ :=
  C1_resolver_priority.2.2.2.1

/-- Replacing a step's operator does not change how its operand resolves. -/
theorem resolveOperand_operator_irrelevant (ctx : Ctx) (es ec : String)
    (bc : Option BaseCtx) (s : Step) (o : JStr) :
    resolveOperand ctx es ec bc { s with operator := o }
      = resolveOperand ctx es ec bc s := by
  cases s
  rfl

/-- C10: a step whose operator is any string other than the four arithmetic
symbols is not rejected and not skipped: the operator is coerced to
addition (evaluation is identical to the same step with operator set to
`"+"`, adding the operand to the running total), while a step that is not
an object at all is skipped without invalidating the entry. -/
theorem C10_unknown_operator_coerced :
    (∀ ctx es ec bc (s : Step) rest t parts cols,
        isKnownOp s.operator = false →
          evalSteps ctx es ec bc (some s :: rest) t parts cols
            = evalSteps ctx es ec bc (some { s with operator := some "+" } :: rest) t parts cols)
  ∧ (∀ ctx es ec bc (s : Step) rest t parts cols v d c,
        isKnownOp s.operator = false →
          resolveOperand ctx es ec bc s = some (v, d, c) →
          evalSteps ctx es ec bc (some s :: rest) t parts cols
            = evalSteps ctx es ec bc rest (t + v) (parts ++ ["+ " ++ d]) (addCol cols c))
  ∧ (∀ ctx es ec bc rest t parts cols,
        evalSteps ctx es ec bc (none :: rest) t parts cols
          = evalSteps ctx es ec bc rest t parts cols) := by
  refine ⟨?_, ?_, fun ctx es ec bc rest t parts cols => rfl⟩
  · intro ctx es ec bc s rest t parts cols h
    have hop : normOp s.operator = "+" := by simp [normOp, h]
    simp only [evalSteps, resolveOperand_operator_irrelevant, hop]
    rfl
  · intro ctx es ec bc s rest t parts cols v d c h hres
    have hop : normOp s.operator = "+" := by simp [normOp, h]
    simp only [evalSteps, hres, hop, applyOp]
    rfl

/-- Closed instance: a `"frobnicate"` step adds its constant. -/
theorem C10_unknown_operator_coerced_witness :
    evalSteps c4Ctx "" "" none [some c10Step] 1 [] []
      = evalSteps c4Ctx "" "" none [] (1 + 3) ["+ manual constant 3"] (addCol [] "Manual Input") :=
  C10_unknown_operator_coerced.2.1 c4Ctx "" "" none c10Step [] 1 [] [] 3
    "manual constant 3" "Manual Input" (by decide) (by decide)

/-- C8: `parseNumericValue` maps unicode minus glyphs to ASCII minus, strips
commas and spaces, converts a fully parenthesised value to a negated one,
strips the remaining characters outside `[0-9.-]`, rejects a leftover of
`""`, `"-"`, `"."` or `"-."`, and otherwise parses the number; in
particular `"(1,234.50)"` parses to `-1234.5` and `"—"` and `""` parse to
nothing. -/
theorem C8_parse_numeric_value :
    parseNumericValue (some "(1,234.50)") = some (-1234.5 : Rat)
  ∧ parseNumericValue (some "—") = none
  ∧ parseNumericValue (some "") = none
  ∧ parseNumericValue none = none
  ∧ (∀ s,
      (stripNonNumeric (parenToMinus (stripSeparators (mapUnicodeMinus (jsTrim s)))) = ""
        ∨ stripNonNumeric (parenToMinus (stripSeparators (mapUnicodeMinus (jsTrim s)))) = "-"
        ∨ stripNonNumeric (parenToMinus (stripSeparators (mapUnicodeMinus (jsTrim s)))) = "."
        ∨ stripNonNumeric (parenToMinus (stripSeparators (mapUnicodeMinus (jsTrim s)))) = "-.") →
      parseNumericValue (some s) = none)
  ∧ (∀ s, jsTrim s ≠ "" →
      stripNonNumeric (parenToMinus (stripSeparators (mapUnicodeMinus (jsTrim s)))) ≠ "" →
      stripNonNumeric (parenToMinus (stripSeparators (mapUnicodeMinus (jsTrim s)))) ≠ "-" →
      stripNonNumeric (parenToMinus (stripSeparators (mapUnicodeMinus (jsTrim s)))) ≠ "." →
      stripNonNumeric (parenToMinus (stripSeparators (mapUnicodeMinus (jsTrim s)))) ≠ "-." →
      parseNumericValue (some s)
        = jsNumber (stripNonNumeric (parenToMinus (stripSeparators (mapUnicodeMinus (jsTrim s)))))) := by
  refine ⟨?_, ?_, ?_, rfl, ?_, ?_⟩
  · decide
  · decide
  · decide
  · intro s h
    by_cases h0 : jsTrim s = ""
    · simp [parseNumericValue, h0]
    · rcases h with h1 | h1 | h1 | h1 <;> simp [parseNumericValue, h0, h1]
  · intro s h0 h1 h2 h3 h4
    simp [parseNumericValue, h0, h1, h2, h3, h4]

/-- Closed instance: a fully alphabetic cell strips to nothing and parses to
nothing. -/
theorem C8_parse_numeric_value_witness :
    parseNumericValue (some "n/a") = none :=
  C8_parse_numeric_value.2.2.2.2.1 "n/a" (Or.inl (by decide))

/-- C4: a calculation entry whose base is a (statement, lineItem) reference
with no literal value and whose base reference fails to resolve does not
fail at the base: the running total starts at 0, the trail begins with the
"Start at 0 for lineItem [statement]" note, and evaluation proceeds with
the entry's steps. -/
theorem C4_unresolvable_base_degrades_to_zero :
    ∀ (ctx : Ctx) (e : Entry),
      toTrimmed e.value = "" →
      toTrimmed e.statement ≠ "" →
      toTrimmed e.lineItem ≠ "" →
      resolveLineItemValue ctx (toTrimmed e.statement) (toTrimmed e.lineItem)
        (toTrimmed e.column) = none →
      evalBase ctx e = some (0, some ⟨toTrimmed e.statement, ""⟩,
          ["Start at 0 for " ++ toTrimmed e.lineItem ++ " [" ++ toTrimmed e.statement ++ "]"],
          [])
      ∧ evaluateEntry ctx (some e)
          = (match evalSteps ctx (toTrimmed e.statement) (toTrimmed e.column)
                (some ⟨toTrimmed e.statement, ""⟩) (e.calculation.getD []) 0
                ["Start at 0 for " ++ toTrimmed e.lineItem ++ " [" ++
                  toTrimmed e.statement ++ "]"] [] with
             | none => none
             | some (t, parts, cols) =>
               some { total := t, columns := cols.filter (fun c => c != ""),
                      formula := joinFormula parts }) := by
  intro ctx e h1 h2 h3 h4
  have hbase : evalBase ctx e = some (0, some ⟨toTrimmed e.statement, ""⟩,
      ["Start at 0 for " ++ toTrimmed e.lineItem ++ " [" ++ toTrimmed e.statement ++ "]"],
      []) := by
    simp [evalBase, h1, h2, h3, h4]
  refine ⟨hbase, ?_⟩
  simp only [evaluateEntry, hbase]

/-- Closed instance: against an empty dataset the base of `c4Entry` starts
at 0 with the note. -/
theorem C4_unresolvable_base_degrades_to_zero_witness :
    evalBase c4Ctx c4Entry = some (0, some ⟨"S", ""⟩, ["Start at 0 for Missing [S]"], []) :=
  (C4_unresolvable_base_degrades_to_zero c4Ctx c4Entry (by decide) (by decide)
    (by decide) (by decide)).1

/-- A divide-by-zero step makes the whole step loop fail. -/
theorem evalSteps_eq_none_of_div_zero (ctx : Ctx) (es ec : String) (bc : Option BaseCtx) :
    ∀ steps (t : Rat) parts cols, (∃ s ∈ steps, divZeroStep ctx es ec bc s) →
      evalSteps ctx es ec bc steps t parts cols = none := by
  intro steps
  induction steps with
  | nil =>
    intro t parts cols h
    obtain ⟨s, hs, _⟩ := h
    simp at hs
  | cons hd rest ih =>
    intro t parts cols h
    obtain ⟨s, hs, hdiv⟩ := h
    rcases List.mem_cons.mp hs with heq | hmem
    · subst heq
      obtain ⟨step, hstep, hop, d, c, hres⟩ := hdiv
      subst hstep
      simp [evalSteps, hres, hop, applyOp]
    · cases hd with
      | none => exact ih t parts cols ⟨s, hmem, hdiv⟩
      | some step =>
        cases hres : resolveOperand ctx es ec bc step with
        | none => simp [evalSteps, hres]
        | some trip =>
          obtain ⟨v, d, c⟩ := trip
          cases happ : applyOp (normOp step.operator) t v with
          | none => simp [evalSteps, hres, happ]
          | some t2 =>
            simp only [evalSteps, hres, happ]
            exact ih t2 _ _ ⟨s, hmem, hdiv⟩

/-- Metric overrides depend on the entries only through the successful
evaluations. -/
theorem metricOverride_congr (ctx : Ctx) (e1 e2 : List (Option Entry))
    (h : e1.filterMap (evaluateEntry ctx) = e2.filterMap (evaluateEntry ctx)) :
    metricOverride ctx e1 = metricOverride ctx e2 := by
  unfold metricOverride
  rw [h]

/-- C3: an entry with a division step whose operand resolves to exactly 0
evaluates to none (over exact rationals every intermediate is finite, so the
non-finite guard of the source never fires), and such an entry contributes
nothing to its metric: the successful-evaluation list, and with it the
aggregate override, is the one of the remaining entries only. -/
theorem C3_div_zero_entry_contributes_nothing :
    (∀ (ctx : Ctx) (e : Entry) (t0 : Rat) bc parts0 cols0,
        evalBase ctx e = some (t0, bc, parts0, cols0) →
        (∃ s ∈ e.calculation.getD [],
            divZeroStep ctx (toTrimmed e.statement) (toTrimmed e.column) bc s) →
        evaluateEntry ctx (some e) = none)
  ∧ (∀ (ctx : Ctx) (x : Option Entry) (l1 l2 : List (Option Entry)),
        evaluateEntry ctx x = none →
          (l1 ++ x :: l2).filterMap (evaluateEntry ctx)
            = (l1 ++ l2).filterMap (evaluateEntry ctx))
  ∧ (∀ (ctx : Ctx) (m : String) (x : Option Entry) (l1 l2 : List (Option Entry)),
        evaluateEntry ctx x = none →
          manualSopOverrides ctx [(m, some (l1 ++ x :: l2))]
            = manualSopOverrides ctx [(m, some (l1 ++ l2))]) := by
  have hfm : ∀ (ctx : Ctx) (x : Option Entry) (l1 l2 : List (Option Entry)),
      evaluateEntry ctx x = none →
        (l1 ++ x :: l2).filterMap (evaluateEntry ctx)
          = (l1 ++ l2).filterMap (evaluateEntry ctx) := by
    intro ctx x l1 l2 hx
    simp [List.filterMap_append, List.filterMap_cons, hx]
  refine ⟨?_, hfm, ?_⟩
  · intro ctx e t0 bc parts0 cols0 hbase hdiv
    simp only [evaluateEntry, hbase]
    rw [evalSteps_eq_none_of_div_zero ctx (toTrimmed e.statement) (toTrimmed e.column) bc
      (e.calculation.getD []) t0 parts0 cols0 hdiv]
  · intro ctx m x l1 l2 hx
    have hco := metricOverride_congr ctx (l1 ++ x :: l2) (l1 ++ l2) (hfm ctx x l1 l2 hx)
    by_cases hnil : l1 ++ l2 = []
    · have hl1 : l1 = [] := by
        cases l1 with
        | nil => rfl
        | cons a as => simp at hnil
      have hl2 : l2 = [] := by
        rw [hl1] at hnil
        simpa using hnil
      subst hl1; subst hl2
      simp [manualSopOverrides, metricOverride, hx]
    · have h1 : (l1 ++ x :: l2).isEmpty = false := by
        cases l1 <;> simp
      have h2 : (l1 ++ l2).isEmpty = false := by
        simp [List.isEmpty_iff, hnil]
      have h3 : ¬(l1 = [] ∧ l2 = []) := by
        rintro ⟨rfl, rfl⟩
        exact hnil rfl
      simp [manualSopOverrides, h1, h2, hco, h3]

/-- Closed instance: the constant-divide-by-zero entry evaluates to none and
drops out of the aggregation lists. -/
theorem C3_div_zero_entry_contributes_nothing_witness :
    evaluateEntry c2Ctx (some c3DivEntry) = none
  ∧ ([some c2EntryA, some c3DivEntry].filterMap (evaluateEntry c2Ctx)
      = [some c2EntryA].filterMap (evaluateEntry c2Ctx)) := by
  have hnone : evaluateEntry c2Ctx (some c3DivEntry) = none :=
    C3_div_zero_entry_contributes_nothing.1 c2Ctx c3DivEntry 5 none
      ["Manual value 5"] (addCol [] "Manual Input") (by decide)
      ⟨some ⟨some "/", none, none, none, some "0"⟩, by decide,
        ⟨⟨some "/", none, none, none, some "0"⟩, rfl, by decide,
          "manual constant 0", "Manual Input", by decide⟩⟩
  exact ⟨hnone,
    C3_div_zero_entry_contributes_nothing.2.1 c2Ctx (some c3DivEntry) [some c2EntryA] [] hnone⟩

/-- A direct cell edit touches only line items, summary, verified flags and
the QC flag: the manual entries, columns, metadata and the rest of the state
are unchanged. -/
theorem handleValueChange_frame (st : AppState) (rid : JStr) (col : String) (v : JStr) :
    (handleValueChange st rid col v).manualSopEntries = st.manualSopEntries
  ∧ (handleValueChange st rid col v).valueColumns = st.valueColumns
  ∧ (handleValueChange st rid col v).latestColumns = st.latestColumns
  ∧ (handleValueChange st rid col v).activeStatement = st.activeStatement
  ∧ (handleValueChange st rid col v).statementMultiplierApplied = st.statementMultiplierApplied
  ∧ (handleValueChange st rid col v).manualRow = st.manualRow := by
  unfold handleValueChange
  dsimp only
  split
  · exact ⟨rfl, rfl, rfl, rfl, rfl, rfl⟩
  · split <;> split <;> exact ⟨rfl, rfl, rfl, rfl, rfl, rfl⟩

/-- C6 counterexample: in the §8 scenario the displayed Manual value does
change when the source cell is edited from 600 to 700 — the override memo
re-evaluates against the current line items, so the displayed value becomes
"1,400" instead of staying "1,200" as claimed. -/
theorem C6_counterexample_edit_changes_displayed_value :
    (displayedSummaryOf c6State).map SumEntry.value = ["1,200"]
  ∧ (displayedSummaryOf (handleValueChange c6State (some "r1") "Q1" (some "700"))).map
      SumEntry.value = ["1,400"]
  ∧ (displayedSummaryOf (handleValueChange c6State (some "r1") "Q1" (some "700"))).map
      SumEntry.value ≠ ["1,200"] := by
  refine ⟨by decide, by decide, by decide⟩

/-- C6 amended: after a metric is flipped Manual, a further direct edit of
the base's source cell changes the displayed value on the very next
recomputation — the edit leaves the stored manual entries untouched, and the
displayed summary is recomputed from the current line items on every read
(pure re-resolution, no caching), so the §8 edit from 600 to 700 turns the
displayed "1,200" into "1,400". -/
theorem C6_amended_edit_reflected_on_recomputation :
    (∀ (st : AppState) (rid : JStr) (col : String) (v : JStr),
        (handleValueChange st rid col v).manualSopEntries = st.manualSopEntries)
  ∧ (displayedSummaryOf c6State).map SumEntry.value = ["1,200"]
  ∧ (displayedSummaryOf (handleValueChange c6State (some "r1") "Q1" (some "700"))).map
      SumEntry.value = ["1,400"] := by
  exact ⟨fun st rid col v => (handleValueChange_frame st rid col v).1, by decide, by decide⟩

/-- Closed instance of the amended C6 statement at the §8 scenario. -/
theorem C6_amended_edit_reflected_on_recomputation_witness :
    (handleValueChange c6State (some "r1") "Q1" (some "700")).manualSopEntries
      = c6State.manualSopEntries :=
  C6_amended_edit_reflected_on_recomputation.1 c6State (some "r1") "Q1" (some "700")

/-- C7 counterexample: removing column `Q1` clears only the base column
field of a ManualEntry (calculation-step operands keep their `Q1`
reference), and on the next evaluation neither entry is invalidated: the
base-only entry resolves through the remaining column `Q2` to 7 instead of
evaluating to null, and the step entry silently evaluates to 10 + 7 = 17
instead of having the step's contribution cleared. -/
theorem C7_counterexample_removed_column_falls_back :
    c7Removed.manualSopEntries
      = [("Revenues", some [some c7BaseCleared]), ("Cash", some [some c7StepEntry])]
  ∧ evaluateEntry (ctxOf c7Removed) (some c7BaseCleared)
      = some ⟨mkRat 7 1, ["Q2"], "L [S -> Q2] (7)"⟩
  ∧ evaluateEntry (ctxOf c7Removed) (some c7StepEntry)
      = some ⟨mkRat 17 1, ["Manual Input", "Q2"], "Manual value 10 + L [S -> Q2] (7)"⟩
  ∧ evaluateEntry (ctxOf c7Removed) (some c7BaseCleared) ≠ none := by
  refine ⟨by decide, by decide, by decide, by decide⟩

/-- C7 amended: removing a ValueColumn removes it from the declared columns,
deletes the field from every row, clears the column/value fields of every
summary metric (manual or baseline) and of every ManualEntry base whose
column matches case-insensitively; calculation-step operands are left
untouched, and a reference hinting at the removed column falls back to the
resolver's remaining candidates on the next evaluation instead of
invalidating. -/
theorem C7_amended_removal_clears_base_not_steps :
    (∀ (st : AppState) (col : String), col ≠ "" → st.valueColumns.contains col = true →
        (handleRemoveColumn st col).valueColumns = st.valueColumns.filter (fun c => c != col)
      ∧ (handleRemoveColumn st col).lineItems = st.lineItems.map (fun item =>
          if item.fields.any (fun p => p.1 == col) then removeField item col else item)
      ∧ (handleRemoveColumn st col).manualSopEntries = st.manualSopEntries.map (fun p =>
          match p.2 with
          | none => (p.1, none)
          | some entries => (p.1, some (entries.map (clearEntryColumn (jsLower col)))))
      ∧ (handleRemoveColumn st col).sopSummary = st.sopSummary.map (fun e =>
          if e.column == "" then e
          else if jsLower e.column != jsLower col then e
          else { e with column := "", value := "-" }))
  ∧ (∀ (k : String) (e : Entry), ∃ e2, clearEntryColumn k (some e) = some e2
        ∧ e2.calculation = e.calculation)
  ∧ evaluateEntry (ctxOf c7Removed) (some c7BaseCleared)
      = some ⟨mkRat 7 1, ["Q2"], "L [S -> Q2] (7)"⟩ := by
  refine ⟨?_, ?_, by decide⟩
  · intro st col h1 h2
    have hg : ¬(col == "" || !st.valueColumns.contains col) = true := by
      simp only [Bool.or_eq_true, beq_iff_eq, Bool.not_eq_true]
      rintro (rfl | hc)
      · exact h1 rfl
      · rw [h2] at hc
        cases hc
    refine ⟨?_, ?_, ?_, ?_⟩ <;> simp only [handleRemoveColumn, hg, if_neg, Bool.not_eq_true]
  · intro k e
    by_cases h : (if truthy e.column then jsLower (e.column.getD "") else "") == k
    · exact ⟨{ e with column := some "", value := some "" }, by simp [clearEntryColumn, h], rfl⟩
    · exact ⟨e, by simp [clearEntryColumn, h], rfl⟩

/-- Closed instance of the amended C7 statement at the two-column fixture. -/
theorem C7_amended_removal_clears_base_not_steps_witness :
    c7Removed.valueColumns = ["Q1", "Q2"].filter (fun c => c != "Q1") :=
  (C7_amended_removal_clears_base_not_steps.1 c7State "Q1" (by decide) (by decide)).1

/-- Mapping a function that fixes every member is the identity. -/
theorem map_id_of_mem {α : Type} (l : List α) (f : α → α) (h : ∀ x ∈ l, f x = x) :
    l.map f = l := by
  induction l with
  | nil => rfl
  | cons a as ih =>
    simp only [List.map_cons, h a (by simp)]
    rw [ih (fun x hx => h x (by simp [hx]))]

/-- C5: a direct cell edit that changes the stored text rewrites exactly the
currently-Baseline summary metrics whose fully populated provenance
(statement, sourceLine, column) matches the edited cell's (statement,
lineItem, column) case-insensitively, giving them the new cell text; Manual
metrics are never rewritten by this propagation, and an edit that does not
change the stored text leaves the state untouched. -/
theorem C5_direct_edit_propagates_to_baseline :
    (∀ (st : AppState) (rid : JStr) (col : String) (v : JStr),
        editChanged st rid col (v.getD "") = true →
        truthy (affectedStatementOf st rid) = true →
        affectedLineItemOf st rid ≠ "" →
        (handleValueChange st rid col v).sopSummary
          = st.sopSummary.map
              (propagateEdit (jsLower ((affectedStatementOf st rid).getD ""))
                (jsLower (affectedLineItemOf st rid)) (jsLower col) (v.getD "")))
  ∧ (∀ (k1 k2 k3 sv : String) (e : SumEntry), e.manual = true →
        propagateEdit k1 k2 k3 sv e = e)
  ∧ (∀ (st : AppState) (rid : JStr) (col : String) (v : JStr),
        editChanged st rid col (v.getD "") = false →
        handleValueChange st rid col v = st) := by
  refine ⟨?_, ?_, ?_⟩
  · intro st rid col v h1 h2 h3
    unfold handleValueChange
    simp [h1, h2, h3, bne_iff_ne]
  · intro k1 k2 k3 sv e h
    simp [propagateEdit, h]
  · intro st rid col v h
    unfold handleValueChange
    simp only [h, Bool.not_false, if_true]
    have hmap : st.lineItems.map (fun item =>
        if jget item "rowId" == rid then
          (if jget item col == some (v.getD "") then item
           else setField item col (v.getD ""))
        else item) = st.lineItems := by
      refine map_id_of_mem _ _ (fun item hmem => ?_)
      by_cases hrow : (jget item "rowId" == rid) = true
      · have hne : ¬((jget item "rowId" == rid && jget item col != some (v.getD "")) = true) := by
          intro hpx
          have hany : editChanged st rid col (v.getD "") = true := by
            unfold editChanged
            exact List.any_eq_true.mpr ⟨item, hmem, hpx⟩
          rw [h] at hany
          cases hany
        have heq : jget item col = some (v.getD "") := by
          by_contra hq
          exact hne (by simp [hrow, bne_iff_ne, hq])
        simp [hrow, heq]
      · simp [hrow]
    rw [hmap]

/-- Closed instance: the matching baseline metric takes the new text while
the manual metric with the same provenance is untouched. -/
theorem C5_direct_edit_propagates_to_baseline_witness :
    (handleValueChange c5State (some "r1") "Q1" (some "9")).sopSummary
      = c5State.sopSummary.map
          (propagateEdit (jsLower ((affectedStatementOf c5State (some "r1")).getD ""))
            (jsLower (affectedLineItemOf c5State (some "r1"))) (jsLower "Q1")
            ((some "9" : JStr).getD "")) :=
  C5_direct_edit_propagates_to_baseline.1 c5State (some "r1") "Q1" (some "9")
    (by decide) (by decide) (by decide)

/-- Reading a key from the in-place-replacing map of `setAssocBool`. -/
theorem lookupBool_map_replace (k : String) (b : Bool) :
    ∀ m : List (String × Bool), m.any (fun p => p.1 == k) = true →
      lookupBool (m.map (fun p => if p.1 == k then (k, b) else p)) k = b := by
  intro m
  induction m with
  | nil => intro hc; cases hc
  | cons p rest ih =>
    intro hc
    by_cases hp : (p.1 == k) = true
    · rw [List.map_cons, if_pos hp]
      unfold lookupBool
      rw [List.find?_cons_of_pos _ (by simp)]
    · rw [List.map_cons, if_neg hp]
      have hrest : rest.any (fun p => p.1 == k) = true := by
        rcases List.any_eq_true.mp hc with ⟨x, hx, hpx⟩
        rcases List.mem_cons.mp hx with rfl | hxr
        · exact absurd hpx hp
        · exact List.any_eq_true.mpr ⟨x, hxr, hpx⟩
      unfold lookupBool
      rw [@List.find?_cons_of_neg _ (fun q => q.1 == k) p _ hp]
      exact ih hrest

/-- Reading a key appended at the end of a map without it. -/
theorem lookupBool_append_new (k : String) (b : Bool) :
    ∀ m : List (String × Bool), m.any (fun p => p.1 == k) = false →
      lookupBool (m ++ [(k, b)]) k = b := by
  intro m
  induction m with
  | nil =>
    intro _
    unfold lookupBool
    rw [List.nil_append, List.find?_cons_of_pos _ (by simp)]
  | cons p rest ih =>
    intro hc
    simp only [List.any_cons, Bool.or_eq_false_iff] at hc
    rw [List.cons_append]
    unfold lookupBool
    rw [@List.find?_cons_of_neg _ (fun q => q.1 == k) p _ (by simp [hc.1])]
    exact ih hc.2

/-- Writing a key then reading it back gives the written flag. -/
theorem lookupBool_setAssocBool (l : List (String × Bool)) (k : String) (b : Bool) :
    lookupBool (setAssocBool l k b) k = b := by
  unfold setAssocBool
  by_cases hany : l.any (fun p => p.1 == k) = true
  · rw [if_pos hany]
    exact lookupBool_map_replace k b l hany
  · rw [if_neg hany]
    refine lookupBool_append_new k b l ?_
    cases h2 : l.any (fun p => p.1 == k)
    · rfl
    · exact absurd h2 hany

/-- One bulk-transform cell visit never touches the active statement or the
multiplier flags, and the update count never decreases. -/
theorem bulkCell_frame (f : JStr → Option String) (row : Row) (acc : AppState × Nat)
    (col : String) :
    (bulkCell f row acc col).1.activeStatement = acc.1.activeStatement
  ∧ (bulkCell f row acc col).1.statementMultiplierApplied = acc.1.statementMultiplierApplied
  ∧ acc.2 ≤ (bulkCell f row acc col).2 := by
  unfold bulkCell
  cases f (jget row col) with
  | none => exact ⟨rfl, rfl, Nat.le_refl _⟩
  | some nextValue =>
    dsimp only
    split
    · exact ⟨(handleValueChange_frame acc.1 (jget row "rowId") col (some nextValue)).2.2.2.1,
        (handleValueChange_frame acc.1 (jget row "rowId") col (some nextValue)).2.2.2.2.1,
        Nat.le_succ _⟩
    · exact ⟨rfl, rfl, Nat.le_refl _⟩

/-- A cell visit that does not raise the count leaves the accumulator
unchanged. -/
theorem bulkCell_eq_of_count_eq (f : JStr → Option String) (row : Row)
    (acc : AppState × Nat) (col : String)
    (h : (bulkCell f row acc col).2 = acc.2) : bulkCell f row acc col = acc := by
  unfold bulkCell at h ⊢
  cases hf : f (jget row col) with
  | none => rfl
  | some nextValue =>
    rw [hf] at h
    dsimp only at h ⊢
    split
    · rename_i hcond
      rw [if_pos hcond] at h
      dsimp only at h
      omega
    · rfl

/-- The bulk sweep preserves the active statement and multiplier flags, and
a sweep whose count stays put is the identity. -/
theorem bulkFold_frame (f : JStr → Option String) :
    ∀ (pairs : List (Row × String)) (acc : AppState × Nat),
      (pairs.foldl (fun a p => bulkCell f p.1 a p.2) acc).1.activeStatement
          = acc.1.activeStatement
      ∧ (pairs.foldl (fun a p => bulkCell f p.1 a p.2) acc).1.statementMultiplierApplied
          = acc.1.statementMultiplierApplied
      ∧ acc.2 ≤ (pairs.foldl (fun a p => bulkCell f p.1 a p.2) acc).2
      ∧ ((pairs.foldl (fun a p => bulkCell f p.1 a p.2) acc).2 = acc.2 →
          pairs.foldl (fun a p => bulkCell f p.1 a p.2) acc = acc) := by
  intro pairs
  induction pairs with
  | nil => exact fun acc => ⟨rfl, rfl, Nat.le_refl _, fun _ => rfl⟩
  | cons p rest ih =>
    intro acc
    simp only [List.foldl_cons]
    obtain ⟨ha1, ha2, ha3⟩ := bulkCell_frame f p.1 acc p.2
    obtain ⟨hb1, hb2, hb3, hb4⟩ := ih (bulkCell f p.1 acc p.2)
    refine ⟨ha1 ▸ hb1, ha2 ▸ hb2, Nat.le_trans ha3 hb3, fun hcnt => ?_⟩
    have hc2 : (bulkCell f p.1 acc p.2).2 = acc.2 := Nat.le_antisymm (hcnt ▸ hb3) ha3
    have hcell := bulkCell_eq_of_count_eq f p.1 acc p.2 hc2
    rw [hcell] at hb4 ⊢
    exact hb4 (by rw [hcell] at hcnt; exact hcnt)

/-- C9: the statement-wide bulk transforms are idempotent no-ops on cells
already in the target form: the scale-by-1000 helper skips every cell whose
text contains `%`, `percent` or `pct`; re-invoking the scale handler is a
no-op (guarded by the per-statement multiplier flag); and the
absolute-value transform maps a cell that already holds a non-negative
formatted value to itself. -/
theorem C9_bulk_transforms_idempotent :
    (∀ s : String, percentTest s = true → appendThreeZeros (some s) = none)
  ∧ (∀ st : AppState, handleStatementAddZeros (handleStatementAddZeros st)
      = handleStatementAddZeros st)
  ∧ (∀ (s : String) (q : Rat), parseNumericValue (some s) = some q → 0 ≤ q →
      formatNumericValue q = some s → convertValueToPositive (some s) = some s) := by
  refine ⟨?_, ?_, ?_⟩
  · intro s h
    simp [appendThreeZeros, h]
  · intro st
    by_cases h1 : (st.activeStatement == "") = true
    · have hfix : handleStatementAddZeros st = st := by
        simp [handleStatementAddZeros, h1]
      rw [hfix, hfix]
    · by_cases h2 : lookupBool st.statementMultiplierApplied st.activeStatement = true
      · have hfix : handleStatementAddZeros st = st := by
          simp [handleStatementAddZeros, h1, h2]
        rw [hfix, hfix]
      · by_cases h3 : (statementValueColumns st).isEmpty = true
        · have hfix : handleStatementAddZeros st = st := by
            simp [handleStatementAddZeros, h1, h2, h3]
          rw [hfix, hfix]
        · set res := bulkSweep appendThreeZeros st.lineItems st.activeStatement
            (statementValueColumns st) st with hres
          obtain ⟨hf1, hf2, _, hf4⟩ := bulkFold_frame appendThreeZeros
            (st.lineItems.flatMap (fun row =>
              if jget row "statement" == some st.activeStatement then
                (statementValueColumns st).map (fun c => (row, c))
              else [])) (st, 0)
          by_cases h4 : res.2 = 0
          · have hid : res = (st, 0) := hf4 h4
            have hfix : handleStatementAddZeros st = st := by
              simp only [handleStatementAddZeros, h1, h2, h3, if_neg, Bool.not_eq_true]
              rw [← hres]
              simp [h4, hid]
            rw [hfix, hfix]
          · have hstep : handleStatementAddZeros st
                = { res.1 with statementMultiplierApplied :=
                    setAssocBool res.1.statementMultiplierApplied st.activeStatement true } := by
              simp only [handleStatementAddZeros, h1, h2, h3, if_neg, Bool.not_eq_true]
              rw [← hres]
              simp [h4]
            rw [hstep]
            have hact : res.1.activeStatement = st.activeStatement := hf1
            have hflag : lookupBool
                (setAssocBool res.1.statementMultiplierApplied st.activeStatement true)
                st.activeStatement = true :=
              lookupBool_setAssocBool _ _ _
            simp [handleStatementAddZeros, hact, h1, hflag]
  · intro s q hp hq hf
    have hnum : ¬q.num < 0 := by
      have := Rat.num_nonneg.mpr hq
      omega
    simp [convertValueToPositive, hp, qAbs, hnum, hf]

/-- Closed instance: a percent cell is skipped and an already-converted cell
is a fixed point of the absolute-value transform. -/
theorem C9_bulk_transforms_idempotent_witness :
    appendThreeZeros (some "5%") = none
  ∧ convertValueToPositive (some "1,234.5") = some "1,234.5" :=
  ⟨C9_bulk_transforms_idempotent.1 "5%" (by decide),
    C9_bulk_transforms_idempotent.2.2 "1,234.5" (mkRat 2469 2) (by decide)
      (by decide) (by decide)⟩

/-- String concatenation concatenates the character data. -/
theorem data_append (a b : String) : (a ++ b).data = a.data ++ b.data := by
  cases a
  cases b
  rfl

/-- Appending on the right preserves a satisfied `any`. -/
theorem any_str_append_left (p : Char → Bool) (a b : String)
    (h : a.data.any p = true) : (a ++ b).data.any p = true := by
  rw [data_append, List.any_append, h]
  rfl

/-- Appending on the left preserves a satisfied `any`. -/
theorem any_str_append_right (p : Char → Bool) (a b : String)
    (h : b.data.any p = true) : (a ++ b).data.any p = true := by
  rw [data_append, List.any_append, h]
  simp

/-- Every word produced by the splitter is nonempty. -/
theorem wordsAux_mem_ne_nil : ∀ (cs acc : List Char), ∀ w ∈ wordsAux cs acc, w ≠ [] := by
  intro cs
  induction cs with
  | nil =>
    intro acc w hw
    unfold wordsAux at hw
    by_cases hacc : acc.isEmpty = true
    · rw [if_pos hacc] at hw
      cases hw
    · rw [if_neg hacc] at hw
      rcases List.mem_singleton.mp hw with rfl
      intro hcontra
      have : acc = [] := by simpa using congrArg List.reverse hcontra
      rw [this] at hacc
      exact hacc rfl
  | cons c rest ih =>
    intro acc w hw
    unfold wordsAux at hw
    by_cases hws : isWsChar c = true
    · rw [if_pos hws] at hw
      by_cases hacc : acc.isEmpty = true
      · rw [if_pos hacc] at hw
        exact ih [] w hw
      · rw [if_neg hacc] at hw
        rcases List.mem_cons.mp hw with rfl | hmem
        · intro hcontra
          have : acc = [] := by simpa using congrArg List.reverse hcontra
          rw [this] at hacc
          exact hacc rfl
        · exact ih [] w hmem
    · rw [if_neg hws] at hw
      exact ih (c :: acc) w hw

/-- The splitter yields at least one word when some character is not
whitespace or the accumulator is nonempty. -/
theorem wordsAux_ne_nil : ∀ (cs acc : List Char),
    (cs.any (fun c => !isWsChar c) = true ∨ acc ≠ []) → wordsAux cs acc ≠ [] := by
  intro cs
  induction cs with
  | nil =>
    intro acc h
    rcases h with h | h
    · cases h
    · unfold wordsAux
      rw [if_neg (by simpa using h)]
      simp
  | cons c rest ih =>
    intro acc h
    unfold wordsAux
    by_cases hws : isWsChar c = true
    · rw [if_pos hws]
      have hrest : rest.any (fun c => !isWsChar c) = true ∨ acc ≠ [] := by
        rcases h with h | h
        · left
          rcases List.any_eq_true.mp h with ⟨x, hx, hpx⟩
          rcases List.mem_cons.mp hx with rfl | hxr
          · rw [hws] at hpx
            cases hpx
          · exact List.any_eq_true.mpr ⟨x, hxr, hpx⟩
        · right; exact h
      by_cases hacc : acc.isEmpty = true
      · rw [if_pos hacc]
        rcases hrest with hr | hr
        · exact ih [] (Or.inl hr)
        · exact absurd (List.isEmpty_iff.mp hacc) hr
      · rw [if_neg hacc]
        simp
    · rw [if_neg hws]
      exact ih (c :: acc) (Or.inr (by simp))

/-- `joinWith` of a list with a nonempty head is nonempty. -/
theorem joinWith_ne (sep : String) (x : String) (xs : List String) (hx : x ≠ "") :
    joinWith sep (x :: xs) ≠ "" := by
  cases xs with
  | nil => exact hx
  | cons y rest =>
    intro hcontra
    have hdata := congrArg String.data hcontra
    simp only [joinWith] at hdata
    rw [data_append, data_append] at hdata
    have hxnil : x.data = [] := by
      have := List.append_eq_nil.mp (List.append_eq_nil.mp hdata).1
      exact this.1
    apply hx
    cases x
    rename_i xd
    have hxd : xd = [] := hxnil
    rw [hxd]

/-- A string with a non-whitespace character squashes to a nonempty
string. -/
theorem squash_ne (s : String) (h : s.data.any (fun c => !isWsChar c) = true) :
    squash s ≠ "" := by
  unfold squash
  have hwords := wordsAux_ne_nil s.data [] (Or.inl h)
  cases hw : wordsAux s.data [] with
  | nil => exact absurd hw hwords
  | cons w ws =>
    simp only [List.map_cons]
    refine joinWith_ne " " _ _ ?_
    have hwne := wordsAux_mem_ne_nil s.data [] w (hw ▸ List.mem_cons_self w ws)
    intro hcontra
    exact hwne (by simpa using congrArg String.data hcontra)

/-- The trail fragment of a resolved reference contains a printable
character. -/
theorem describeResolved_any (r : Resolved) (li es : String) :
    (describeResolved r li es).data.any (fun c => !isWsChar c) = true := by
  unfold describeResolved
  exact any_str_append_right _ _ ")" (by decide)

/-- The base of a successful evaluation contributes exactly one trail part,
and that part has a printable character. -/
theorem evalBase_parts (ctx : Ctx) (e : Entry) (t0 : Rat) (bc : Option BaseCtx)
    (parts0 cols0 : List String)
    (h : evalBase ctx e = some (t0, bc, parts0, cols0)) :
    ∃ p0, parts0 = [p0] ∧ p0.data.any (fun c => !isWsChar c) = true := by
  unfold evalBase at h
  simp only [] at h
  split at h
  · split at h
    · cases h
    · simp only [Option.some.injEq, Prod.mk.injEq] at h
      obtain ⟨-, -, hparts, -⟩ := h
      exact ⟨_, hparts.symm, any_str_append_left _ "Manual value " _ (by decide)⟩
  · split at h
    · split at h
      · simp only [Option.some.injEq, Prod.mk.injEq] at h
        obtain ⟨-, -, hparts, -⟩ := h
        exact ⟨_, hparts.symm, any_str_append_right _ _ "]" (by decide)⟩
      · simp only [Option.some.injEq, Prod.mk.injEq] at h
        obtain ⟨-, -, hparts, -⟩ := h
        exact ⟨_, hparts.symm, describeResolved_any _ _ _⟩
    · cases h

/-- The step loop only appends trail parts. -/
theorem evalSteps_parts_prefix (ctx : Ctx) (es ec : String) (bc : Option BaseCtx) :
    ∀ (steps : List (Option Step)) (t : Rat) (parts cols : List String)
      (r : Rat × List String × List String),
      evalSteps ctx es ec bc steps t parts cols = some r →
      ∃ ext, r.2.1 = parts ++ ext := by
  intro steps
  induction steps with
  | nil =>
    intro t parts cols r h
    simp only [evalSteps, Option.some.injEq] at h
    exact ⟨[], by rw [← h]; simp⟩
  | cons hd rest ih =>
    intro t parts cols r h
    cases hd with
    | none => exact ih t parts cols r h
    | some step =>
      simp only [evalSteps] at h
      cases hres : resolveOperand ctx es ec bc step with
      | none => rw [hres] at h; cases h
      | some trip =>
        obtain ⟨v, d, c⟩ := trip
        rw [hres] at h
        dsimp only at h
        cases happ : applyOp (normOp step.operator) t v with
        | none => rw [happ] at h; cases h
        | some t2 =>
          rw [happ] at h
          obtain ⟨ext, hext⟩ := ih t2 _ _ r h
          exact ⟨(normOp step.operator ++ " " ++ d) :: ext, by
            rw [hext, List.append_assoc]
            rfl⟩

/-- A successful evaluation has a nonempty formula and no blank touched
column. -/
theorem evaluateEntry_spec (ctx : Ctx) (x : Option Entry) (r : EvalResult)
    (h : evaluateEntry ctx x = some r) :
    r.formula ≠ "" ∧ ∀ c ∈ r.columns, c ≠ "" := by
  cases x with
  | none => cases h
  | some e =>
    simp only [evaluateEntry] at h
    cases hbase : evalBase ctx e with
    | none => rw [hbase] at h; cases h
    | some quad =>
      obtain ⟨t0, bc, parts0, cols0⟩ := quad
      rw [hbase] at h
      dsimp only at h
      cases hsteps : evalSteps ctx (toTrimmed e.statement) (toTrimmed e.column) bc
          (e.calculation.getD []) t0 parts0 cols0 with
      | none => rw [hsteps] at h; cases h
      | some trip =>
        obtain ⟨t, parts, cols⟩ := trip
        rw [hsteps] at h
        simp only [Option.some.injEq] at h
        obtain ⟨p0, hp0, hany⟩ := evalBase_parts ctx e t0 bc parts0 cols0 hbase
        obtain ⟨ext, hext⟩ := evalSteps_parts_prefix ctx (toTrimmed e.statement)
          (toTrimmed e.column) bc (e.calculation.getD []) t0 parts0 cols0 _ hsteps
        constructor
        · rw [← h]
          simp only
          rw [show parts = p0 :: ext by simpa [hp0] using hext]
          unfold joinFormula
          simp only [List.map_cons]
          have hsq : squash p0 ≠ "" := squash_ne p0 hany
          rw [List.filter_cons_of_pos (by simpa using hsq)]
          exact joinWith_ne " " _ _ hsq
        · intro c hc
          rw [← h] at hc
          simp only at hc
          have := List.mem_filter.mp hc
          simpa using this.2

/-- Membership in `addCol`. -/
theorem mem_addCol (cols : List String) (c x : String) :
    x ∈ addCol cols c ↔ x ∈ cols ∨ (c ≠ "" ∧ x = c) := by
  unfold addCol
  by_cases h1 : (c == "") = true
  · have : c = "" := by simpa using h1
    subst this
    simp [h1]
  · rw [if_neg h1]
    have hcne : c ≠ "" := by simpa using h1
    by_cases h2 : cols.contains c = true
    · rw [if_pos h2]
      constructor
      · exact fun hx => Or.inl hx
      · rintro (hx | ⟨-, rfl⟩)
        · exact hx
        · exact List.elem_iff.mp h2
    · rw [if_neg h2]
      simp [List.mem_append, hcne]

/-- `addCol` preserves distinctness. -/
theorem nodup_addCol (cols : List String) (c : String) (h : cols.Nodup) :
    (addCol cols c).Nodup := by
  unfold addCol
  by_cases h1 : (c == "") = true
  · simp [h1, h]
  · rw [if_neg h1]
    by_cases h2 : cols.contains c = true
    · have hmem : c ∈ cols := List.elem_iff.mp h2
      simp [hmem, h]
    · rw [if_neg h2]
      have hnotmem : c ∉ cols := by
        intro hc
        exact h2 (List.elem_iff.mpr hc)
      simp [List.nodup_append, h, hnotmem]

/-- Membership across a fold of `addCol` over one column list. -/
theorem addCol_foldl_mem (cs : List String) :
    ∀ (acc : List String) (x : String),
      x ∈ cs.foldl addCol acc ↔ x ∈ acc ∨ (x ∈ cs ∧ x ≠ "") := by
  induction cs with
  | nil => intro acc x; simp
  | cons c rest ih =>
    intro acc x
    simp only [List.foldl_cons]
    rw [ih (addCol acc c) x, mem_addCol]
    simp only [List.mem_cons]
    constructor
    · rintro ((hx | ⟨hc, rfl⟩) | ⟨hx, hne⟩)
      · exact Or.inl hx
      · exact Or.inr ⟨Or.inl rfl, hc⟩
      · exact Or.inr ⟨Or.inr hx, hne⟩
    · rintro (hx | ⟨rfl | hx, hne⟩)
      · exact Or.inl (Or.inl hx)
      · exact Or.inl (Or.inr ⟨hne, rfl⟩)
      · exact Or.inr ⟨hx, hne⟩

/-- Distinctness across a fold of `addCol`. -/
theorem addCol_foldl_nodup (cs : List String) :
    ∀ acc, acc.Nodup → (cs.foldl addCol acc).Nodup := by
  induction cs with
  | nil => intro acc h; simpa using h
  | cons c rest ih => intro acc h; exact ih _ (nodup_addCol acc c h)

/-- Membership in the touched-column accumulation of `metricOverride`. -/
theorem touched_mem (Ls : List (List String)) :
    ∀ (acc : List String) (x : String),
      x ∈ Ls.foldl (fun (acc cs : List String) => cs.foldl addCol acc) acc ↔
        x ∈ acc ∨ ∃ cs ∈ Ls, x ∈ cs ∧ x ≠ "" := by
  induction Ls with
  | nil => intro acc x; simp
  | cons l rest ih =>
    intro acc x
    simp only [List.foldl_cons]
    rw [ih (l.foldl addCol acc) x, addCol_foldl_mem]
    simp only [List.mem_cons]
    constructor
    · rintro ((hx | ⟨hl, hne⟩) | ⟨cs, hcs, hx, hne⟩)
      · exact Or.inl hx
      · exact Or.inr ⟨l, Or.inl rfl, hl, hne⟩
      · exact Or.inr ⟨cs, Or.inr hcs, hx, hne⟩
    · rintro (hx | ⟨cs, rfl | hcs, hx, hne⟩)
      · exact Or.inl (Or.inl hx)
      · exact Or.inl (Or.inr ⟨hx, hne⟩)
      · exact Or.inr ⟨cs, hcs, hx, hne⟩

/-- Distinctness of the touched-column accumulation. -/
theorem touched_nodup (Ls : List (List String)) :
    ∀ acc, acc.Nodup →
      (Ls.foldl (fun (acc cs : List String) => cs.foldl addCol acc) acc).Nodup := by
  induction Ls with
  | nil => intro acc h; simpa using h
  | cons l rest ih => intro acc h; exact ih _ (addCol_foldl_nodup l acc h)

/-- Applying a single-metric override to its summary row. -/
theorem displayed_single (ov : Override) (e : SumEntry) :
    displayedSopSummary [(e.metric, ov)] [e]
      = [({ e with
            value := ov.value,
            statement := ov.statement,
            column := ov.column,
            sourceLine := ov.sourceLine,
            manual := true })] := by
  simp [displayedSopSummary]

set_option maxHeartbeats 1600000 in
/-- C2: for a metric with at least one manual entry, the displayed metric
shows `formatNumericValue` of the sum of the totals of exactly the
successfully evaluating entries (failed entries drop out), with
`manual = true`, statement `Derived`, the single distinct touched column
name when exactly one column was touched and `"Multiple"` when more than
one, and the joined per-entry formula trails; if no entry succeeds the
baseline row passes through unchanged. -/
theorem C2_manual_entry_aggregation :
    ∀ (ctx : Ctx) (metric : String) (entries : List (Option Entry)) (e : SumEntry),
      e.metric = metric → entries ≠ [] →
      (entries.filterMap (evaluateEntry ctx) = [] →
        displayedSopSummary (manualSopOverrides ctx [(metric, some entries)]) [e] = [e])
      ∧ (∀ results, entries.filterMap (evaluateEntry ctx) = results → results ≠ [] →
          ∃ d, displayedSopSummary (manualSopOverrides ctx [(metric, some entries)]) [e] = [d]
            ∧ d.metric = e.metric
            ∧ d.manual = true
            ∧ d.statement = "Derived"
            ∧ d.value = normaliseSopValue (formatNumericValue ((results.map EvalResult.total).sum))
            ∧ d.sourceLine = joinWith "; " (results.map EvalResult.formula)
            ∧ (∀ c, (results.flatMap EvalResult.columns).toFinset = {c} → d.column = c)
            ∧ (1 < (results.flatMap EvalResult.columns).toFinset.card →
                d.column = "Multiple")) := by
  intro ctx metric entries e hm hne
  subst hm
  have hie : entries.isEmpty = false := by simp [List.isEmpty_iff, hne]
  constructor
  · intro hres
    have hov : metricOverride ctx entries = none := by
      simp [metricOverride, hres]
    simp [manualSopOverrides, hie, hov, displayedSopSummary]
  · intro results hrdef hrne
    have hresie : results.isEmpty = false := by simp [List.isEmpty_iff, hrne]
    have hall : ∀ r ∈ results, r.formula ≠ "" ∧ ∀ c ∈ r.columns, c ≠ "" := by
      intro r hr
      rw [← hrdef] at hr
      obtain ⟨x, hx, hxr⟩ := List.mem_filterMap.mp hr
      exact evaluateEntry_spec ctx x r hxr
    have hforms : (results.map EvalResult.formula).filter (fun f => f != "")
        = results.map EvalResult.formula := by
      refine List.filter_eq_self.mpr (fun f hf => ?_)
      obtain ⟨r, hr, rfl⟩ := List.mem_map.mp hf
      simpa using (hall r hr).1
    have hmapie : (results.map EvalResult.formula).isEmpty = false := by
      cases results with
      | nil => exact absurd rfl hrne
      | cons a as => rfl
    have htmem2 : ∀ x, x ∈ ((results.map EvalResult.columns).foldl
        (fun (acc cs : List String) => cs.foldl addCol acc) [])
        ↔ x ∈ results.flatMap EvalResult.columns := by
      intro x
      rw [touched_mem]
      simp only [List.mem_nil_iff, false_or]
      constructor
      · rintro ⟨cs, hcs, hx, hxe⟩
        obtain ⟨r, hr, rfl⟩ := List.mem_map.mp hcs
        exact List.mem_flatMap.mpr ⟨r, hr, hx⟩
      · intro hx
        obtain ⟨r, hr, hxr⟩ := List.mem_flatMap.mp hx
        exact ⟨r.columns, List.mem_map_of_mem _ hr, hxr, (hall r hr).2 x hxr⟩
    have htnodup : ((results.map EvalResult.columns).foldl
        (fun (acc cs : List String) => cs.foldl addCol acc) []).Nodup :=
      touched_nodup _ [] (by simp)
    have htfil : (((results.map EvalResult.columns).foldl
        (fun (acc cs : List String) => cs.foldl addCol acc) []).filter (fun c => c != ""))
        = ((results.map EvalResult.columns).foldl
            (fun (acc cs : List String) => cs.foldl addCol acc) []) := by
      refine List.filter_eq_self.mpr (fun a ha => ?_)
      have hx := (htmem2 a).mp ha
      obtain ⟨r, hr, hxr⟩ := List.mem_flatMap.mp hx
      simpa using (hall r hr).2 a hxr
    have hov : metricOverride ctx entries = some
        { value := normaliseSopValue (formatNumericValue
            ((results.map EvalResult.total).foldl (fun a b => a + b) 0)),
          statement := "Derived",
          column :=
            if (((results.map EvalResult.columns).foldl
                (fun (acc cs : List String) => cs.foldl addCol acc) []).filter
                  (fun c => c != "")).isEmpty then ""
            else
              match (((results.map EvalResult.columns).foldl
                  (fun (acc cs : List String) => cs.foldl addCol acc) []).filter
                    (fun c => c != "")) with
              | [c] => c
              | _ => "Multiple",
          sourceLine :=
            if ((results.map EvalResult.formula).filter (fun f => f != "")).isEmpty then
              "Derived from manual calculation"
            else joinWith "; " ((results.map EvalResult.formula).filter (fun f => f != "")) } := by
      simp only [metricOverride, hrdef, hresie, Bool.false_eq_true, if_false]
    have hmso : manualSopOverrides ctx [(e.metric, some entries)]
        = [(e.metric,
            { value := normaliseSopValue (formatNumericValue
                ((results.map EvalResult.total).foldl (fun a b => a + b) 0)),
              statement := "Derived",
              column :=
                if (((results.map EvalResult.columns).foldl
                    (fun (acc cs : List String) => cs.foldl addCol acc) []).filter
                      (fun c => c != "")).isEmpty then ""
                else
                  match (((results.map EvalResult.columns).foldl
                      (fun (acc cs : List String) => cs.foldl addCol acc) []).filter
                        (fun c => c != "")) with
                  | [c] => c
                  | _ => "Multiple",
              sourceLine :=
                if ((results.map EvalResult.formula).filter (fun f => f != "")).isEmpty then
                  "Derived from manual calculation"
                else joinWith "; "
                  ((results.map EvalResult.formula).filter (fun f => f != "")) })] := by
      simp [manualSopOverrides, hie, hne, hov]
    have hval : ((results.map EvalResult.total).foldl (fun a b => a + b) 0)
        = (results.map EvalResult.total).sum := List.sum_eq_foldl.symm
    have hsrc : (if ((results.map EvalResult.formula).filter (fun f => f != "")).isEmpty then
          "Derived from manual calculation"
        else joinWith "; " ((results.map EvalResult.formula).filter (fun f => f != "")))
        = joinWith "; " (results.map EvalResult.formula) := by
      rw [hforms, hmapie]
      rfl
    cases hT : ((results.map EvalResult.columns).foldl
        (fun (acc cs : List String) => cs.foldl addCol acc) []) with
    | nil =>
      have hflatnil : ∀ x, x ∉ results.flatMap EvalResult.columns := by
        intro x hx
        have hmem := (htmem2 x).mpr hx
        rw [hT] at hmem
        cases hmem
      have hcol : (if (((results.map EvalResult.columns).foldl
            (fun (acc cs : List String) => cs.foldl addCol acc) []).filter
              (fun c => c != "")).isEmpty then ""
          else
            match (((results.map EvalResult.columns).foldl
                (fun (acc cs : List String) => cs.foldl addCol acc) []).filter
                  (fun c => c != "")) with
            | [c] => c
            | _ => "Multiple") = "" := by
        rw [htfil, hT]
        rfl
      refine ⟨{ e with
          value := normaliseSopValue (formatNumericValue ((results.map EvalResult.total).sum)),
          statement := "Derived",
          column := "",
          sourceLine := joinWith "; " (results.map EvalResult.formula),
          manual := true }, ?_, rfl, rfl, rfl, rfl, rfl, ?_, ?_⟩
      · rw [hmso, displayed_single]
        dsimp only
        rw [hval, hsrc, hcol]
      · intro c htf
        exfalso
        have hcmem : c ∈ (results.flatMap EvalResult.columns).toFinset := by
          rw [htf]
          exact Finset.mem_singleton_self c
        exact hflatnil c (List.mem_toFinset.mp hcmem)
      · intro hcard
        exfalso
        obtain ⟨a, ha, b, hb, hab⟩ := Finset.one_lt_card.mp hcard
        exact hflatnil a (List.mem_toFinset.mp ha)
    | cons c0 tl =>
      cases tl with
      | nil =>
        have hcol : (if (((results.map EvalResult.columns).foldl
              (fun (acc cs : List String) => cs.foldl addCol acc) []).filter
                (fun c => c != "")).isEmpty then ""
            else
              match (((results.map EvalResult.columns).foldl
                  (fun (acc cs : List String) => cs.foldl addCol acc) []).filter
                    (fun c => c != "")) with
              | [c] => c
              | _ => "Multiple") = c0 := by
          rw [htfil, hT]
          rfl
        refine ⟨{ e with
            value := normaliseSopValue (formatNumericValue ((results.map EvalResult.total).sum)),
            statement := "Derived",
            column := c0,
            sourceLine := joinWith "; " (results.map EvalResult.formula),
            manual := true }, ?_, rfl, rfl, rfl, rfl, rfl, ?_, ?_⟩
        · rw [hmso, displayed_single]
          dsimp only
          rw [hval, hsrc, hcol]
        · intro c htf
          have hc0 : c0 ∈ results.flatMap EvalResult.columns :=
            (htmem2 c0).mp (by rw [hT]; exact List.mem_singleton_self c0)
          have hfin : c0 ∈ (results.flatMap EvalResult.columns).toFinset :=
            List.mem_toFinset.mpr hc0
          rw [htf] at hfin
          exact Finset.mem_singleton.mp hfin
        · intro hcard
          exfalso
          obtain ⟨a, ha, b, hb, hab⟩ := Finset.one_lt_card.mp hcard
          have ha2 := (htmem2 a).mpr (List.mem_toFinset.mp ha)
          have hb2 := (htmem2 b).mpr (List.mem_toFinset.mp hb)
          rw [hT] at ha2 hb2
          exact hab ((List.mem_singleton.mp ha2).trans (List.mem_singleton.mp hb2).symm)
      | cons c1 tl2 =>
        have hcol : (if (((results.map EvalResult.columns).foldl
              (fun (acc cs : List String) => cs.foldl addCol acc) []).filter
                (fun c => c != "")).isEmpty then ""
            else
              match (((results.map EvalResult.columns).foldl
                  (fun (acc cs : List String) => cs.foldl addCol acc) []).filter
                    (fun c => c != "")) with
              | [c] => c
              | _ => "Multiple") = "Multiple" := by
          rw [htfil, hT]
          rfl
        refine ⟨{ e with
            value := normaliseSopValue (formatNumericValue ((results.map EvalResult.total).sum)),
            statement := "Derived",
            column := "Multiple",
            sourceLine := joinWith "; " (results.map EvalResult.formula),
            manual := true }, ?_, rfl, rfl, rfl, rfl, rfl, ?_, ?_⟩
        · rw [hmso, displayed_single]
          dsimp only
          rw [hval, hsrc, hcol]
        · intro c htf
          exfalso
          have hnd := htnodup
          rw [hT] at hnd
          have hc01 : c0 ≠ c1 := by
            intro hcontra
            have hsplit := List.nodup_cons.mp hnd
            exact hsplit.1 (hcontra ▸ List.mem_cons_self c1 tl2)
          have hc0 : c0 ∈ results.flatMap EvalResult.columns :=
            (htmem2 c0).mp (by rw [hT]; exact List.mem_cons_self _ _)
          have hc1 : c1 ∈ results.flatMap EvalResult.columns :=
            (htmem2 c1).mp (by rw [hT]; exact List.mem_cons_of_mem _ (List.mem_cons_self _ _))
          have h0 : c0 ∈ (results.flatMap EvalResult.columns).toFinset :=
            List.mem_toFinset.mpr hc0
          have h1 : c1 ∈ (results.flatMap EvalResult.columns).toFinset :=
            List.mem_toFinset.mpr hc1
          rw [htf] at h0 h1
          exact hc01 ((Finset.mem_singleton.mp h0).trans (Finset.mem_singleton.mp h1).symm)
        · intro hcard
          rfl

/-- Closed instance: a single literal entry worth 5 flips the metric Manual
with value "5", statement `Derived`, sourceLine "Manual value 5". -/
theorem C2_manual_entry_aggregation_witness :
    displayedSopSummary
        (manualSopOverrides c2Ctx [("Revenues", some [some c2EntryA])])
        [⟨"Revenues", "-", "", "", "", false⟩]
      = [⟨"Revenues", "5", "Derived", "Manual Input", "Manual value 5", true⟩] := by
  obtain ⟨d, hd, hmet, hman, hstmt, hval, hsrc, hsingle, -⟩ :=
    (C2_manual_entry_aggregation c2Ctx "Revenues" [some c2EntryA]
        ⟨"Revenues", "-", "", "", "", false⟩ rfl (by decide)).2
      ([some c2EntryA].filterMap (evaluateEntry c2Ctx)) rfl (by decide)
  rw [hd]
  have hcol : d.column = "Manual Input" := hsingle "Manual Input" (by decide)
  have hv : d.value = "5" := by rw [hval]; decide
  have hs : d.sourceLine = "Manual value 5" := by rw [hsrc]; decide
  have : d = ⟨"Revenues", "5", "Derived", "Manual Input", "Manual value 5", true⟩ := by
    cases d
    simp_all
  rw [this]

end SopEngine
